import Mathlib

/-!
# Verification of the streaming task-orchestration client of `write_agent`

Shallow embedding of the SSE streaming client in
`frontend/src/services/api.ts` and its call site `frontend/src/pages/HomePage.tsx`:

* the EventFrame codec (buffer splitting on blank lines, `data: ` line
  extraction, JSON-parse-or-drop) used by `extractStyleWithStream` and
  `runFullWorkflow`;
* the `EventSource`-based dispatchers `rewriteWithStream`,
  `reviewWithStream`, `coverWithStream`;
* the chunked-response consumer `extractStyleWithStream`;
* the promise-style session starters `startRewrite`, `startReview`,
  `startCover` (with their `settled` flags and post-`done` reconciliation
  fetch), and the single-flight connection handling of `HomePage`.

JSON values are modelled by `JVal` (the payload fields the client reads are
all primitive); the browser's `JSON.parse` (with the `try/catch` of
`parseSseJson`) is a platform builtin, modelled as an explicit parameter of
type `JsonParse` returning `none` on parse failure.  Network fetches
(`getRewrite`, `getReview`, `getCover`) are platform/axios calls, modelled as
an explicit parameter mapping an id to the settlement of the fetch.
JS machine floats are modelled as `Int`; `Number(x)` of a non-numeric string
is `NaN` in JS and `0` here, which the code's only uses of the result
(`> 0` and falsiness tests) cannot distinguish.
-/

/-- A primitive JSON value as consumed by the client.  Every payload field the
client code reads (`type`, `delta`, `task_id`, `review_id`, `id`, `message`,
`error`, `name`, `style_description`, `tags`, `created_at`, `final_content`,
`actual_words`) is a primitive; nested objects/arrays are never consumed and
are omitted from the model. -/
inductive JVal
  | vnull
  | vbool (b : Bool)
  | vnum (n : Int)
  | vstr (s : String)
  deriving DecidableEq, Repr

/-- A parsed JSON object: association list of field name to value
(JSON object keys are unique; property lookup takes the first match). -/
abbrev Obj := List (String × JVal)

/-- JS property access `o.k`: `some v` when the field is present,
`none` standing for `undefined`. -/
def getField (o : Obj) (k : String) : Option JVal :=
  (o.find? (fun kv => kv.1 == k)).map (fun kv => kv.2)

/-- JS truthiness of a primitive value. -/
def jsTruthy : JVal → Bool
  | .vnull => false
  | .vbool b => b
  | .vnum n => !(n == 0)
  | .vstr s => !(s == "")

/-- JS `x || d` for a possibly-absent `x` (`undefined` and falsy values fall
through to the default). -/
def jsOrDefault (v : Option JVal) (d : JVal) : JVal :=
  match v with
  | some x => if jsTruthy x then x else d
  | none => d

/-- JS `String(x)` on a primitive value. -/
def jsToString : JVal → String
  | .vnull => "null"
  | .vbool b => if b then "true" else "false"
  | .vnum n => toString n
  | .vstr s => s

/-- JS `Number(x)` on a primitive value (`NaN` collapsed to `0`, see header). -/
def jsToNumber : JVal → Int
  | .vnull => 0
  | .vbool b => if b then 1 else 0
  | .vnum n => n
  | .vstr s => if s = "" then 0 else (s.toInt?).getD 0

/-- The browser's `JSON.parse` wrapped in `try/catch`: `none` means the text
failed to parse.  Supplied as an environment parameter; concrete
instantiations are used for concrete runs. -/
abbrev JsonParse := String → Option Obj

/-- `parseSseJson` from `api.ts`: attempt a JSON decode, `null` (here `none`)
on failure. -/
def parseSseJson (jsonParse : JsonParse) (raw : String) : Option Obj :=
  jsonParse raw

/-! ## The EventFrame codec

`extractStyleWithStream` and `runFullWorkflow` both accumulate raw text into
a buffer, split it on the blank-line separator `"\n\n"`, keep the last
(possibly incomplete) part as the new buffer, and decode each complete
segment by locating its `data: ` line and JSON-parsing the rest of that
line.  Text is modelled as `List Char`. -/

/-- Prepend a character to the first part of a split (helper for the
splitting functions). -/
def consHead (c : Char) : List (List Char) → List (List Char)
  | [] => [[c]]
  | s :: ss => (c :: s) :: ss

/-- JS `buffer.split("\n\n")`: greedy left-to-right split on the two-newline
separator. -/
def splitSep : List Char → List (List Char)
  | [] => [[]]
  | [c] => [[c]]
  | c1 :: c2 :: rest =>
    if c1 = '\n' ∧ c2 = '\n' then [] :: splitSep rest
    else consHead c1 (splitSep (c2 :: rest))

/-- JS `chunk.split("\n")`. -/
def splitLines : List Char → List (List Char)
  | [] => [[]]
  | c :: rest =>
    if c = '\n' then [] :: splitLines rest
    else consHead c (splitLines rest)

/-- The `data: ` payload marker. -/
def sseMarker : List Char := "data: ".toList

/-- `chunk.split("\n").find(line => line.startsWith("data: "))`, then
`.slice(6)`: the JSON text of a segment's payload line, if any. -/
def findDataLine (seg : List Char) : Option (List Char) :=
  ((splitLines seg).find? (fun l => sseMarker.isPrefixOf l)).map (List.drop 6)

/-- One round of the buffering rule, for one arriving chunk:
`buffer += chunk; parts = buffer.split("\n\n"); buffer = parts.pop() || "";`
returns the complete segments (all parts but the last) and the new buffer. -/
def feedChunk (buf chunk : List Char) : List (List Char) × List Char :=
  let parts := splitSep (buf ++ chunk)
  (parts.dropLast, parts.getLastD [])

/-- Folding the buffering rule over a whole sequence of raw chunks: the
ordered list of all complete segments produced, and the final leftover
buffer (which the source drops when the reader reports end-of-stream). -/
def feedChunks (buf : List Char) : List (List Char) → List (List Char) × List Char
  | [] => ([], buf)
  | c :: cs =>
    let fed := feedChunk buf c
    let rest := feedChunks fed.2 cs
    (fed.1 ++ rest.1, rest.2)

/-- Decode one complete segment to an EventFrame: locate the `data: ` line,
JSON-parse its body (`none` both when no data line exists and when the JSON
is malformed — the segment is silently dropped). -/
def decodeSeg (jsonParse : JsonParse) (seg : List Char) : Option Obj :=
  (findDataLine seg).bind (fun payload => parseSseJson jsonParse (String.mk payload))

/-- The frames decoded from a chunk sequence: the complete segments of the
buffering rule, each decoded, drops filtered out. -/
def decodeChunks (jsonParse : JsonParse) (chunks : List (List Char)) : List Obj :=
  (feedChunks [] chunks).1.filterMap (decodeSeg jsonParse)

/-- A well-formed wire block for one event: one `data: ` line carrying the
payload text, terminated by the blank-line separator. -/
def mkBlock (payload : String) : List Char :=
  sseMarker ++ payload.toList ++ ['\n', '\n']

/-! ## EventSource transport and the push-style dispatchers

`rewriteWithStream`, `reviewWithStream` and `coverWithStream` attach an
`onmessage`/`onerror` pair to a browser `EventSource`.  The platform
contract of `EventSource.close()` is that no further events are dispatched
to a closed source; the runner below carries that closed flag.  Each
incoming occurrence is either a message event (carrying its raw `event.data`
text) or a transport error event. -/

/-- An event delivered by the EventSource transport. -/
inductive ESIn
  | message (raw : String)
  | errEvent
  deriving DecidableEq, Repr

/-- Run an EventSource handler pair over a list of incoming events:
a closed source dispatches nothing; otherwise `onMsg`/`onErr` produce the
callbacks fired by that event, plus whether the handler called `close()`.
Returns all callbacks fired in order and the final closed flag. -/
def runES {α : Type} (onMsg : String → List α × Bool) (onErr : List α × Bool) :
    List ESIn → Bool → List α × Bool
  | [], closed => ([], closed)
  | e :: rest, closed =>
    if closed then runES onMsg onErr rest closed
    else
      let fired := match e with
        | .message raw => onMsg raw
        | .errEvent => onErr
      let later := runES onMsg onErr rest fired.2
      (fired.1 ++ later.1, later.2)

/-- Callback invocations observable from `rewriteWithStream`
(and `reviewWithStream`, which has the same shape). -/
inductive RwCb
  | rwChunk (delta : String)
  | rwStart (taskId : Int)
  | rwDone (d : Obj)
  | rwError (msg : String)
  deriving DecidableEq, Repr

/-- The `onmessage` handler of `rewriteWithStream`: parse the event data,
return on parse failure, then `switch (data.type)` — `content` fires
`onChunk(String(data.delta || ""))`; `start` fires `onStart(taskId)` only
when `Number(data.task_id || 0) > 0`; `done` fires `onDone(data)` and closes;
`error` fires `onError(String(data.message || "Unknown error"))` and closes;
anything else falls to `default` and is ignored. -/
def rewriteOnMessage (data : Option Obj) : List RwCb × Bool :=
  match data with
  | none => ([], false)
  | some d =>
    if getField d "type" = some (.vstr "content") then
      ([.rwChunk (jsToString (jsOrDefault (getField d "delta") (.vstr "")))], false)
    else if getField d "type" = some (.vstr "start") then
      let taskId := jsToNumber (jsOrDefault (getField d "task_id") (.vnum 0))
      (if taskId > 0 then [.rwStart taskId] else [], false)
    else if getField d "type" = some (.vstr "done") then ([.rwDone d], true)
    else if getField d "type" = some (.vstr "error") then
      ([.rwError (jsToString (jsOrDefault (getField d "message") (.vstr "Unknown error")))], true)
    else ([], false)

/-- The `onmessage` handler of `reviewWithStream`: identical to the rewrite
one except the start id field is `review_id`. -/
def reviewOnMessage (data : Option Obj) : List RwCb × Bool :=
  match data with
  | none => ([], false)
  | some d =>
    if getField d "type" = some (.vstr "content") then
      ([.rwChunk (jsToString (jsOrDefault (getField d "delta") (.vstr "")))], false)
    else if getField d "type" = some (.vstr "start") then
      let reviewId := jsToNumber (jsOrDefault (getField d "review_id") (.vnum 0))
      (if reviewId > 0 then [.rwStart reviewId] else [], false)
    else if getField d "type" = some (.vstr "done") then ([.rwDone d], true)
    else if getField d "type" = some (.vstr "error") then
      ([.rwError (jsToString (jsOrDefault (getField d "message") (.vstr "Unknown error")))], true)
    else ([], false)

/-- `rewriteWithStream`'s observable behaviour on a list of transport events:
callbacks fired in order and final closed flag.  `onerror` fires
`onError("Connection error")` and closes. -/
def rewriteWithStreamRun (jsonParse : JsonParse) (events : List ESIn) : List RwCb × Bool :=
  runES (fun raw => rewriteOnMessage (parseSseJson jsonParse raw))
    ([.rwError "Connection error"], true) events false

/-- `reviewWithStream`'s observable behaviour, same transport semantics. -/
def reviewWithStreamRun (jsonParse : JsonParse) (events : List ESIn) : List RwCb × Bool :=
  runES (fun raw => reviewOnMessage (parseSseJson jsonParse raw))
    ([.rwError "Connection error"], true) events false

/-- Callback invocations observable from `coverWithStream`. -/
inductive CvCb
  | cvProgress (d : Obj)
  | cvDone (d : Obj)
  | cvError (msg : String)
  deriving DecidableEq, Repr

/-- The `onmessage` handler of `coverWithStream`: parse the event data,
return on failure; an `error`-typed frame fires
`onError(String(data.message || data.error || "Unknown error"))` and closes;
every other frame fires `onProgress(data)`, and a `done`-typed frame
additionally fires `onDone(data)` and closes. -/
def coverOnMessage (data : Option Obj) : List CvCb × Bool :=
  match data with
  | none => ([], false)
  | some d =>
    if getField d "type" = some (.vstr "error") then
      ([.cvError (jsToString (jsOrDefault (getField d "message")
        (jsOrDefault (getField d "error") (.vstr "Unknown error"))))], true)
    else if getField d "type" = some (.vstr "done") then
      ([.cvProgress d, .cvDone d], true)
    else
      ([.cvProgress d], false)

/-- `coverWithStream`'s observable behaviour on a list of transport events. -/
def coverWithStreamRun (jsonParse : JsonParse) (events : List ESIn) : List CvCb × Bool :=
  runES (fun raw => coverOnMessage (parseSseJson jsonParse raw))
    ([.cvError "Connection error"], true) events false

/-- The running-transcript accumulation of the rewrite call site
(`HomePage.handleRewrite`'s `onChunk`: `prev + chunk`): the in-order
concatenation of all `content` deltas fired by the stream. -/
def accumContent (cbs : List RwCb) : String :=
  cbs.foldl (fun acc c => match c with | .rwChunk s => acc ++ s | _ => acc) ""

/-! ## The chunked-response consumer `extractStyleWithStream`

Reads the response body chunk by chunk, applies the buffering rule, and for
each complete segment dispatches on `String(parsed.type || "")` with an
if-chain: `start`/`progress`/`content` fire their callbacks; `error` throws
(aborting the whole read loop); `done` records the created style (without
stopping the loop).  After the stream ends, a missing recorded style
throws. -/

/-- The `WritingStyle` object built by `extractStyleWithStream`'s `done`
branch (the subset of fields it populates). -/
structure WritingStyle where
  id : Int
  name : String
  style_description : String
  tags : Option String
  created_at : String
  deriving DecidableEq, Repr

/-- Callback invocations observable from `extractStyleWithStream`. -/
inductive ExCb
  | exStart (d : Obj)
  | exProgress (d : Obj)
  | exChunk (delta : String)
  deriving DecidableEq, Repr

/-- Process one complete segment of the style-extraction stream.  `now`
stands for `new Date().toISOString()` (the default `created_at`);
`styleName` is `request.style_name`.  Returns the callbacks fired and either
the updated `createdStyle` state or the thrown error message. -/
def extractHandleSeg (jsonParse : JsonParse) (now styleName : String)
    (seg : List Char) (st : Option WritingStyle) :
    List ExCb × Except String (Option WritingStyle) :=
  match findDataLine seg with
  | none => ([], .ok st)
  | some payload =>
    match parseSseJson jsonParse (String.mk payload) with
    | none => ([], .ok st)
    | some d =>
      let eventType := jsToString (jsOrDefault (getField d "type") (.vstr ""))
      if eventType = "start" then ([.exStart d], .ok st)
      else if eventType = "progress" then ([.exProgress d], .ok st)
      else if eventType = "content" then
        ([.exChunk (jsToString (jsOrDefault (getField d "delta") (.vstr "")))], .ok st)
      else if eventType = "error" then
        ([], .error (jsToString (jsOrDefault (getField d "message") (.vstr "风格提取失败"))))
      else if eventType = "done" then
        ([], .ok (some {
          id := jsToNumber (jsOrDefault (getField d "id") (.vnum 0))
          name := jsToString (jsOrDefault (getField d "name") (.vstr styleName))
          style_description := jsToString (jsOrDefault (getField d "style_description") (.vstr ""))
          tags := match getField d "tags" with
            | some v => if jsTruthy v then some (jsToString v) else none
            | none => none
          created_at := jsToString (jsOrDefault (getField d "created_at") (.vstr now)) }))
      else ([], .ok st)

/-- Process the complete segments of one arrived chunk in order; a thrown
error aborts immediately (callbacks already fired are kept). -/
def extractSegs (jsonParse : JsonParse) (now styleName : String) :
    List (List Char) → Option WritingStyle → List ExCb × Except String (Option WritingStyle)
  | [], st => ([], .ok st)
  | seg :: rest, st =>
    let fired := extractHandleSeg jsonParse now styleName seg st
    match fired.2 with
    | .error e => (fired.1, .error e)
    | .ok st' =>
      let later := extractSegs jsonParse now styleName rest st'
      (fired.1 ++ later.1, later.2)

/-- The chunk-reading loop of `extractStyleWithStream`: buffer, split on the
blank-line separator, retain the last part, process the complete segments;
a throw stops reading; the leftover buffer is dropped at end-of-stream. -/
def extractLoop (jsonParse : JsonParse) (now styleName : String) :
    List (List Char) → List Char → Option WritingStyle →
    List ExCb × Except String (Option WritingStyle)
  | [], _, st => ([], .ok st)
  | c :: cs, buf, st =>
    let fed := feedChunk buf c
    let fired := extractSegs jsonParse now styleName fed.1 st
    match fired.2 with
    | .error e => (fired.1, .error e)
    | .ok st' =>
      let later := extractLoop jsonParse now styleName cs fed.2 st'
      (fired.1 ++ later.1, later.2)

/-- `extractStyleWithStream`'s observable behaviour on a list of raw body
chunks: callbacks fired in order, and either the created style or the thrown
error (`"风格提取未返回完成结果"` when the stream ended without a `done`). -/
def extractStyleWithStreamRun (jsonParse : JsonParse) (now styleName : String)
    (chunks : List (List Char)) : List ExCb × Except String WritingStyle :=
  let ran := extractLoop jsonParse now styleName chunks [] none
  match ran.2 with
  | .error e => (ran.1, .error e)
  | .ok none => (ran.1, .error "风格提取未返回完成结果")
  | .ok (some st) => (ran.1, .ok st)

/-! ## The promise-style session starters

`startRewrite`, `startReview` and `startCover` wrap a streaming call in a
`Promise`, guarded by a `settled` flag.  The `onDone` callback is `async`:
it performs the reconciliation fetch (`getRewrite`/`getReview`/`getCover`)
at an `await`, so in the machine below a passing `done` frame leaves a
pending fetch whose resumption is a separate occurrence.  The promise itself
has first-settlement-wins semantics (a second `resolve`/`reject` is a no-op
on the completion value), modelled by `settleP`.  Cancellation from the call
site is `eventSource.close()` on the session's connection. -/

deriving instance DecidableEq for Except

/-- First-settlement-wins write to a promise's completion value. -/
def settleP {α : Type} (p : Option α) (v : α) : Option α :=
  match p with
  | none => some v
  | some w => some w

/-- One occurrence fed to a session machine: a transport event, a call-site
cancellation (`eventSource.close()`), or the resumption of the pending
reconciliation fetch. -/
inductive Occ
  | es (e : ESIn)
  | cancelCall
  | fetchReturn
  deriving DecidableEq, Repr

/-- The persisted rewrite record (fields of the `RewriteRecord` interface
used by the rewrite flow). -/
structure RewriteRecord where
  id : Int
  source_article : String
  final_content : String
  style_id : Int
  target_words : Int
  actual_words : Int
  status : String
  created_at : String
  deriving DecidableEq, Repr

/-- The persisted review record (fields of the `ReviewRecord` interface). -/
structure ReviewRecord where
  id : Int
  rewrite_id : Int
  status : String
  created_at : String
  deriving DecidableEq, Repr

/-- The persisted cover record (fields of the `CoverRecord` interface). -/
structure CoverRecord where
  id : Int
  rewrite_id : Int
  image_url : Option String
  status : String
  created_at : String
  deriving DecidableEq, Repr

/-- State of one `startRewrite` invocation: the mutable closure variables
`taskId` and `settled`, the connection's closed flag, the pending
reconciliation fetch, the promise's completion value, plus an audit log of
fetched ids and of all callbacks fired. -/
structure StartRwState where
  esClosed : Bool
  taskId : Option Int
  settled : Bool
  pendingFetch : Option Int
  promise : Option (Except String RewriteRecord)
  fetchLog : List Int
  cbLog : List RwCb
  deriving DecidableEq, Repr

/-- Initial state of a `startRewrite` session. -/
def startRwInit : StartRwState :=
  { esClosed := false, taskId := none, settled := false, pendingFetch := none
    promise := none, fetchLog := [], cbLog := [] }

/-- Apply one callback fired by the stream to `startRewrite`'s closure state:
`onChunk` does nothing; `onStart` stores the id; `onError` rejects if not
settled; `onDone` rejects with the missing-id error when `!taskId`
(null or `0`), otherwise starts the reconciliation fetch. -/
def applyRwCb (st : StartRwState) (c : RwCb) : StartRwState :=
  match c with
  | .rwChunk _ => st
  | .rwStart id => { st with taskId := some id }
  | .rwError msg =>
    if st.settled then st
    else { st with settled := true, promise := settleP st.promise (.error msg) }
  | .rwDone _ =>
    if st.settled then st
    else
      match st.taskId with
      | none =>
        { st with settled := true
                  promise := settleP st.promise (.error "未获取到改写任务ID") }
      | some t =>
        if t = 0 then
          { st with settled := true
                    promise := settleP st.promise (.error "未获取到改写任务ID") }
        else { st with pendingFetch := some t, fetchLog := st.fetchLog ++ [t] }

/-- One step of the `startRewrite` session machine.  `fetch` maps a record id
to the settlement of `getRewrite(id)` (resolve into `ok`, axios throw into
`error`). -/
def startRewriteStep (jsonParse : JsonParse) (fetch : Int → Except String RewriteRecord)
    (st : StartRwState) (o : Occ) : StartRwState :=
  match o with
  | .cancelCall => { st with esClosed := true }
  | .fetchReturn =>
    match st.pendingFetch with
    | none => st
    | some t =>
      { st with pendingFetch := none, settled := true
                promise := settleP st.promise (fetch t) }
  | .es e =>
    if st.esClosed then st
    else
      let fired := match e with
        | .message raw => rewriteOnMessage (parseSseJson jsonParse raw)
        | .errEvent => ([.rwError "Connection error"], true)
      let st' := fired.1.foldl applyRwCb st
      { st' with esClosed := fired.2, cbLog := st'.cbLog ++ fired.1 }

/-- Run a whole `startRewrite` session over a list of occurrences. -/
def startRewriteRun (jsonParse : JsonParse) (fetch : Int → Except String RewriteRecord)
    (occs : List Occ) : StartRwState :=
  occs.foldl (startRewriteStep jsonParse fetch) startRwInit

/-- State of one `startReview` invocation (same shape as `startRewrite`,
with the `reviewId` closure variable). -/
structure StartRvState where
  esClosed : Bool
  reviewId : Option Int
  settled : Bool
  pendingFetch : Option Int
  promise : Option (Except String ReviewRecord)
  fetchLog : List Int
  cbLog : List RwCb
  deriving DecidableEq, Repr

/-- Initial state of a `startReview` session. -/
def startRvInit : StartRvState :=
  { esClosed := false, reviewId := none, settled := false, pendingFetch := none
    promise := none, fetchLog := [], cbLog := [] }

/-- Apply one stream callback to `startReview`'s closure state. -/
def applyRvCb (st : StartRvState) (c : RwCb) : StartRvState :=
  match c with
  | .rwChunk _ => st
  | .rwStart id => { st with reviewId := some id }
  | .rwError msg =>
    if st.settled then st
    else { st with settled := true, promise := settleP st.promise (.error msg) }
  | .rwDone _ =>
    if st.settled then st
    else
      match st.reviewId with
      | none =>
        { st with settled := true
                  promise := settleP st.promise (.error "未获取到审核ID") }
      | some t =>
        if t = 0 then
          { st with settled := true
                    promise := settleP st.promise (.error "未获取到审核ID") }
        else { st with pendingFetch := some t, fetchLog := st.fetchLog ++ [t] }

/-- One step of the `startReview` session machine. -/
def startReviewStep (jsonParse : JsonParse) (fetch : Int → Except String ReviewRecord)
    (st : StartRvState) (o : Occ) : StartRvState :=
  match o with
  | .cancelCall => { st with esClosed := true }
  | .fetchReturn =>
    match st.pendingFetch with
    | none => st
    | some t =>
      { st with pendingFetch := none, settled := true
                promise := settleP st.promise (fetch t) }
  | .es e =>
    if st.esClosed then st
    else
      let fired := match e with
        | .message raw => reviewOnMessage (parseSseJson jsonParse raw)
        | .errEvent => ([.rwError "Connection error"], true)
      let st' := fired.1.foldl applyRvCb st
      { st' with esClosed := fired.2, cbLog := st'.cbLog ++ fired.1 }

/-- Run a whole `startReview` session over a list of occurrences. -/
def startReviewRun (jsonParse : JsonParse) (fetch : Int → Except String ReviewRecord)
    (occs : List Occ) : StartRvState :=
  occs.foldl (startReviewStep jsonParse fetch) startRvInit

/-- State of one `startCover` invocation (no stored id: the cover id is read
from the `done` payload). -/
structure StartCvState where
  esClosed : Bool
  settled : Bool
  pendingFetch : Option Int
  promise : Option (Except String CoverRecord)
  fetchLog : List Int
  cbLog : List CvCb
  deriving DecidableEq, Repr

/-- Initial state of a `startCover` session. -/
def startCvInit : StartCvState :=
  { esClosed := false, settled := false, pendingFetch := none
    promise := none, fetchLog := [], cbLog := [] }

/-- Apply one stream callback to `startCover`'s closure state: `onProgress`
does nothing; `onError` rejects if not settled; `onDone` reads
`Number(data.id || 0)`, rejects with the missing-id error when falsy,
otherwise starts the reconciliation fetch. -/
def applyCvCb (st : StartCvState) (c : CvCb) : StartCvState :=
  match c with
  | .cvProgress _ => st
  | .cvError msg =>
    if st.settled then st
    else { st with settled := true, promise := settleP st.promise (.error msg) }
  | .cvDone d =>
    if st.settled then st
    else
      let coverId := jsToNumber (jsOrDefault (getField d "id") (.vnum 0))
      if coverId = 0 then
        { st with settled := true
                  promise := settleP st.promise (.error "未获取到封面ID") }
      else { st with pendingFetch := some coverId, fetchLog := st.fetchLog ++ [coverId] }

/-- One step of the `startCover` session machine. -/
def startCoverStep (jsonParse : JsonParse) (fetch : Int → Except String CoverRecord)
    (st : StartCvState) (o : Occ) : StartCvState :=
  match o with
  | .cancelCall => { st with esClosed := true }
  | .fetchReturn =>
    match st.pendingFetch with
    | none => st
    | some t =>
      { st with pendingFetch := none, settled := true
                promise := settleP st.promise (fetch t) }
  | .es e =>
    if st.esClosed then st
    else
      let fired := match e with
        | .message raw => coverOnMessage (parseSseJson jsonParse raw)
        | .errEvent => ([.cvError "Connection error"], true)
      let st' := fired.1.foldl applyCvCb st
      { st' with esClosed := fired.2, cbLog := st'.cbLog ++ fired.1 }

/-- Run a whole `startCover` session over a list of occurrences. -/
def startCoverRun (jsonParse : JsonParse) (fetch : Int → Except String CoverRecord)
    (occs : List Occ) : StartCvState :=
  occs.foldl (startCoverStep jsonParse fetch) startCvInit

/-! ## The HomePage call site: single-flight connection handling

`HomePage` keeps the current `EventSource` handle in `eventSourceRef`.
`handleRewrite` first closes any existing connection, then opens a new one
and stores it; the cancel button closes the current connection and nulls the
ref; the unmount cleanup closes the current connection; the stream's own
`done`/`error` handlers close the connection they belong to.  Connections
are modelled as records with a fresh id and a closed flag. -/

/-- One connection created at the call site. -/
structure Conn where
  id : Nat
  closed : Bool
  deriving DecidableEq, Repr

/-- Call-site state: every connection ever created here, the ref to the
current one, and the next fresh id. -/
structure PageState where
  conns : List Conn
  currentES : Option Nat
  nextId : Nat
  deriving DecidableEq, Repr

/-- Initial call-site state: no connection, empty ref. -/
def pageInit : PageState := { conns := [], currentES := none, nextId := 0 }

/-- Set the closed flag of the connection with the given id
(`eventSource.close()`; idempotent). -/
def closeById (i : Nat) (l : List Conn) : List Conn :=
  l.map (fun c => if c.id = i then { c with closed := true } else c)

/-- Close the connection the ref currently points to, if any. -/
def closeCurrent (s : PageState) : List Conn :=
  match s.currentES with
  | none => s.conns
  | some i => closeById i s.conns

/-- An action at the call site. -/
inductive PageAct
  /-- `handleRewrite` (the guard `!sourceContent || !selectedStyleId` returns
  early when the inputs are invalid). -/
  | rewriteClick (inputsOk : Bool)
  /-- The cancel button: close the connection, null the ref. -/
  | cancelClick
  /-- The unmount cleanup effect: close the connection (ref not nulled). -/
  | unmountCleanup
  /-- A stream handler (`done`/`error`/`onerror`) closing the connection it
  belongs to. -/
  | handlerClose (i : Nat)
  deriving DecidableEq, Repr

/-- One call-site action step. -/
def pageStep (s : PageState) (a : PageAct) : PageState :=
  match a with
  | .rewriteClick ok =>
    if !ok then s
    else
      let cleared := closeCurrent s
      { conns := cleared ++ [{ id := s.nextId, closed := false }]
        currentES := some s.nextId
        nextId := s.nextId + 1 }
  | .cancelClick => { s with conns := closeCurrent s, currentES := none }
  | .unmountCleanup => { s with conns := closeCurrent s }
  | .handlerClose i => { s with conns := closeById i s.conns }

/-- Run a list of call-site actions from the initial state. -/
def runPage (acts : List PageAct) : PageState :=
  acts.foldl pageStep pageInit

/-- The connections of a state that are still open. -/
def openConns (s : PageState) : List Conn :=
  s.conns.filter (fun c => !c.closed)

/-! ## Concrete fixtures

A concrete instantiation of the `JSON.parse` parameter, defined on exactly
the wire payloads used in the concrete scenarios below, plus the records the
fetch parameters return.  (Braces in the payload texts are written with
`\x7b`/`\x7d` escapes.) -/

/-- Concrete `JSON.parse` for the scenario payloads. -/
def testParse : JsonParse
  | "\x7b\"type\":\"start\",\"task_id\":42\x7d" =>
    some [("type", .vstr "start"), ("task_id", .vnum 42)]
  | "\x7b\"type\":\"content\",\"delta\":\"Hello\"\x7d" =>
    some [("type", .vstr "content"), ("delta", .vstr "Hello")]
  | "\x7b\"type\":\"content\",\"delta\":\", World!\"\x7d" =>
    some [("type", .vstr "content"), ("delta", .vstr ", World!")]
  | "\x7b\"type\":\"done\",\"final_content\":\"Hello, World!\",\"actual_words\":2\x7d" =>
    some [("type", .vstr "done"), ("final_content", .vstr "Hello, World!"),
          ("actual_words", .vnum 2)]
  | "\x7b\"type\":\"start\"\x7d" => some [("type", .vstr "start")]
  | "\x7b\"type\":\"content\",\"delta\":\"x\"\x7d" =>
    some [("type", .vstr "content"), ("delta", .vstr "x")]
  | "\x7b\"type\":\"done\"\x7d" => some [("type", .vstr "done")]
  | "\x7b\"type\":\"done\",\"id\":7\x7d" => some [("type", .vstr "done"), ("id", .vnum 7)]
  | "\x7b\"type\":\"error\",\"message\":\"boom\"\x7d" =>
    some [("type", .vstr "error"), ("message", .vstr "boom")]
  | "\x7b\"type\":\"bogus\"\x7d" => some [("type", .vstr "bogus")]
  | _ => none

/-- Raw wire text of the `start{task_id:42}` frame. -/
def rawStart42 : String := "\x7b\"type\":\"start\",\"task_id\":42\x7d"

/-- Raw wire text of the `content{delta:"Hello"}` frame. -/
def rawHello : String := "\x7b\"type\":\"content\",\"delta\":\"Hello\"\x7d"

/-- Raw wire text of the `content{delta:", World!"}` frame. -/
def rawWorld : String := "\x7b\"type\":\"content\",\"delta\":\", World!\"\x7d"

/-- Raw wire text of the final `done` frame of the rewrite scenario. -/
def rawDoneFinal : String :=
  "\x7b\"type\":\"done\",\"final_content\":\"Hello, World!\",\"actual_words\":2\x7d"

/-- Raw wire text of a `start` frame carrying no id. -/
def rawStartNoId : String := "\x7b\"type\":\"start\"\x7d"

/-- Raw wire text of a `content{delta:"x"}` frame. -/
def rawContentX : String := "\x7b\"type\":\"content\",\"delta\":\"x\"\x7d"

/-- Raw wire text of a `done` frame carrying no id. -/
def rawDoneNoId : String := "\x7b\"type\":\"done\"\x7d"

/-- Raw wire text of a `done{id:7}` frame. -/
def rawDone7 : String := "\x7b\"type\":\"done\",\"id\":7\x7d"

/-- Raw wire text of an `error{message:"boom"}` frame. -/
def rawErrorBoom : String := "\x7b\"type\":\"error\",\"message\":\"boom\"\x7d"

/-- Raw wire text of a frame whose type is outside every stage's enum. -/
def rawBogus : String := "\x7b\"type\":\"bogus\"\x7d"

/-- The record `getRewrite(42)` returns in the end-to-end scenario. -/
def record42 : RewriteRecord :=
  { id := 42, source_article := "hello world", final_content := "Hello, World!"
    style_id := 1, target_words := 500, actual_words := 2
    status := "completed", created_at := "2026-01-01T00:00:00" }

/-- The fetch environment of the end-to-end scenario: id 42 resolves to
`record42`, anything else is a not-found rejection. -/
def fetch42 (i : Int) : Except String RewriteRecord :=
  if i = 42 then .ok record42 else .error "Not Found"

/-- Transport events of the end-to-end rewrite scenario. -/
def scenarioMsgs : List ESIn :=
  [.message rawStart42, .message rawHello, .message rawWorld, .message rawDoneFinal]

/-- Occurrences of the end-to-end rewrite scenario: the four frames, then the
reconciliation fetch resumes. -/
def scenarioOccs : List Occ :=
  [.es (.message rawStart42), .es (.message rawHello), .es (.message rawWorld),
   .es (.message rawDoneFinal), .fetchReturn]

/-- Occurrences of the missing-id scenario for `startRewrite`. -/
def missingIdOccs : List Occ :=
  [.es (.message rawStartNoId), .es (.message rawContentX), .es (.message rawDoneNoId)]

/-- Chunked-transport chunks of the missing-id scenario for style extraction:
`start` with no id, `content("x")`, `done` with no id, one block per chunk. -/
def missingIdChunks : List (List Char) :=
  [mkBlock rawStartNoId, mkBlock rawContentX, mkBlock rawDoneNoId]

/-- Chunked-transport chunks with a frame supplied after the `done` frame. -/
def afterDoneChunks : List (List Char) :=
  [mkBlock rawDone7, mkBlock rawContentX]

/-- An incoming transport event whose payload survives the decoder: transport
errors always reach `onerror`; a message survives iff its data parses. -/
def wellFormedEvent (jsonParse : JsonParse) : ESIn → Bool
  | .message raw => (parseSseJson jsonParse raw).isSome
  | .errEvent => true

/-- Invariant of the call-site state used to establish single-flight:
created ids are below the fresh counter, ids are pairwise distinct, every
open connection is the one the ref points to, and the ref points below the
fresh counter. -/
def pageInv (s : PageState) : Prop :=
  (∀ c ∈ s.conns, c.id < s.nextId) ∧
  s.conns.Pairwise (fun a b => a.id ≠ b.id) ∧
  (∀ c ∈ s.conns, c.closed = false → s.currentES = some c.id) ∧
  (∀ i, s.currentES = some i → i < s.nextId)

/-! ## Codec lemmas -/

theorem consHead_ne_nil (c : Char) (l : List (List Char)) : consHead c l ≠ [] := by
  cases l <;> simp [consHead]

theorem splitSep_ne_nil (s : List Char) : splitSep s ≠ [] := by
  induction s using splitSep.induct with
  | case1 => simp [splitSep]
  | case2 c => simp [splitSep]
  | case3 c1 c2 rest h ih => simp [splitSep, h]
  | case4 c1 c2 rest h ih => simp only [splitSep, if_neg h]; exact consHead_ne_nil _ _

theorem splitSep_sep (rest : List Char) :
    splitSep ('\n' :: '\n' :: rest) = [] :: splitSep rest := by
  simp [splitSep]

theorem splitSep_cons (c1 c2 : Char) (rest : List Char) (h : ¬(c1 = '\n' ∧ c2 = '\n')) :
    splitSep (c1 :: c2 :: rest) = consHead c1 (splitSep (c2 :: rest)) := by
  simp [splitSep, h]

theorem splitSep_eq_singleton {s : List Char} {a : List Char} (h : splitSep s = [a]) :
    a = s := by
  induction s using splitSep.induct generalizing a with
  | case1 => simp [splitSep] at h; exact h
  | case2 c => simp [splitSep] at h; simp [h]
  | case3 c1 c2 rest hc ih =>
    obtain ⟨rfl, rfl⟩ := hc
    rw [splitSep_sep] at h
    cases hs : splitSep rest with
    | nil => exact absurd hs (splitSep_ne_nil rest)
    | cons x xs => simp [hs] at h
  | case4 c1 c2 rest hc ih =>
    rw [splitSep_cons _ _ _ hc] at h
    cases hs : splitSep (c2 :: rest) with
    | nil => exact absurd hs (splitSep_ne_nil _)
    | cons x xs =>
      rw [hs] at h
      simp only [consHead] at h
      rw [List.cons.injEq] at h
      obtain ⟨ha, hxs⟩ := h
      subst hxs
      rw [← ha, ih (a := x) hs]

theorem getLastD_of_ne_nil {α : Type} (l : List α) (h : l ≠ []) (d d' : α) :
    l.getLastD d = l.getLastD d' := by
  cases l with
  | nil => simp at h
  | cons b bs =>
    simp only [List.getLastD_eq_getLast?]
    cases hb : (b :: bs).getLast? with
    | none => simp [List.getLast?_eq_none_iff] at hb
    | some x => simp

theorem getLastD_append_right {α : Type} (l1 l2 : List α) (d : α) (h : l2 ≠ []) :
    (l1 ++ l2).getLastD d = l2.getLastD d := by
  cases l2 with
  | nil => simp at h
  | cons b bs =>
    simp [List.getLastD_eq_getLast?, List.getLast?_append_of_ne_nil]
    cases hb : (b :: bs).getLast? with
    | none => simp [List.getLast?_eq_none_iff] at hb
    | some x => simp

/-- Compositionality of the greedy blank-line split: splitting `s ++ t` is
splitting `s`, keeping its completed parts, and re-splitting its last
(incomplete) part glued to `t`.  This is exactly why the buffering rule of
the codec is sound. -/
theorem splitSep_append (s t : List Char) :
    splitSep (s ++ t) =
      (splitSep s).dropLast ++ splitSep ((splitSep s).getLastD [] ++ t) := by
  induction s using splitSep.induct with
  | case1 => simp [splitSep]
  | case2 c => simp [splitSep]
  | case3 c1 c2 rest hc ih =>
    obtain ⟨rfl, rfl⟩ := hc
    rw [List.cons_append, List.cons_append, splitSep_sep, splitSep_sep, ih]
    cases hA : splitSep rest with
    | nil => exact absurd hA (splitSep_ne_nil rest)
    | cons a as => simp [hA, List.getLastD_cons]
  | case4 c1 c2 rest hc ih =>
    have hL : splitSep ((c1 :: c2 :: rest) ++ t)
        = consHead c1 (splitSep ((c2 :: rest) ++ t)) := by
      rw [List.cons_append, List.cons_append, splitSep_cons _ _ _ hc]
    rw [hL, ih, splitSep_cons _ _ _ hc]
    cases hA : splitSep (c2 :: rest) with
    | nil => exact absurd hA (splitSep_ne_nil _)
    | cons x xs =>
      cases xs with
      | nil =>
        have hx : x = c2 :: rest := splitSep_eq_singleton hA
        subst hx
        simp only [consHead, List.dropLast_single, List.getLastD_cons,
          List.getLastD_nil, List.nil_append]
        exact hL.symm
      | cons y ys =>
        simp only [consHead, List.dropLast_cons₂, List.getLastD_cons, List.cons_append]

/-- The buffering machine over any nonempty chunk list behaves as one big
split of the buffer glued to the concatenation of the chunks. -/
theorem feedChunks_spec (cs : List (List Char)) (buf : List Char) (h : cs ≠ []) :
    feedChunks buf cs =
      ((splitSep (buf ++ cs.flatten)).dropLast, (splitSep (buf ++ cs.flatten)).getLastD []) := by
  induction cs generalizing buf with
  | nil => exact absurd rfl h
  | cons c cs ih =>
    cases cs with
    | nil => simp [feedChunks, feedChunk]
    | cons c2 cs2 =>
      have hstep : feedChunks buf (c :: c2 :: cs2) =
          ((feedChunk buf c).1 ++ (feedChunks (feedChunk buf c).2 (c2 :: cs2)).1,
           (feedChunks (feedChunk buf c).2 (c2 :: cs2)).2) := rfl
      have hfc1 : (feedChunk buf c).1 = (splitSep (buf ++ c)).dropLast := rfl
      have hfc2 : (feedChunk buf c).2 = (splitSep (buf ++ c)).getLastD [] := rfl
      have key := splitSep_append (buf ++ c) ((c2 :: cs2).flatten)
      rw [hstep, ih _ (by simp), hfc1, hfc2]
      simp only [List.flatten_cons, ← List.append_assoc] at key ⊢
      rw [key, List.dropLast_append_of_ne_nil _ (splitSep_ne_nil _),
        getLastD_append_right _ _ _ (splitSep_ne_nil _)]

/-- Feeding all chunks one at a time equals feeding their concatenation as a
single chunk (same emitted segments, same final buffer). -/
theorem feedChunks_flatten (cs : List (List Char)) :
    feedChunks [] cs = feedChunks [] [cs.flatten] := by
  cases cs with
  | nil => simp [feedChunks, feedChunk, splitSep]
  | cons c cs' =>
    rw [feedChunks_spec _ _ (by simp), feedChunks_spec _ _ (by simp)]
    simp

theorem splitSep_no_newline {s : List Char} (h : '\n' ∉ s) : splitSep s = [s] := by
  induction s with
  | nil => rfl
  | cons c s' ih =>
    have hc : ¬c = '\n' := by intro he; exact h (he ▸ List.mem_cons_self c s')
    cases s' with
    | nil => rfl
    | cons d s'' =>
      rw [splitSep_cons c d s'' (by intro hp; exact hc hp.1),
        ih (by intro hm; exact h (List.mem_cons_of_mem c hm))]
      rfl

theorem splitSep_append_newline {s : List Char} (h : '\n' ∉ s) :
    splitSep (s ++ ['\n']) = [s ++ ['\n']] := by
  induction s with
  | nil => rfl
  | cons c s' ih =>
    have hc : ¬c = '\n' := by intro he; exact h (he ▸ List.mem_cons_self c s')
    cases s' with
    | nil => rw [show ([c] ++ ['\n'] : List Char) = c :: '\n' :: [] from rfl,
        splitSep_cons c '\n' [] (by intro hp; exact hc hp.1)]; rfl
    | cons d s'' =>
      have ih2 := ih (by intro hm; exact h (List.mem_cons_of_mem c hm))
      rw [List.cons_append] at ih2
      rw [List.cons_append, List.cons_append,
        splitSep_cons c d (s'' ++ ['\n']) (by intro hp; exact hc hp.1), ih2]
      rfl

/-- Splitting a newline-free prefix followed by the separator peels off that
prefix as one complete part. -/
theorem splitSep_block {s : List Char} (t : List Char) (h : '\n' ∉ s) :
    splitSep (s ++ '\n' :: '\n' :: t) = s :: splitSep t := by
  induction s with
  | nil => exact splitSep_sep t
  | cons c s' ih =>
    have hc : ¬c = '\n' := by intro he; exact h (he ▸ List.mem_cons_self c s')
    have ih' := ih (by intro hm; exact h (List.mem_cons_of_mem c hm))
    cases s' with
    | nil =>
      rw [show (([c] ++ '\n' :: '\n' :: t : List Char)) = c :: '\n' :: ('\n' :: t) from rfl,
        splitSep_cons c '\n' ('\n' :: t) (by intro hp; exact hc hp.1), splitSep_sep]
      rfl
    | cons d s'' =>
      rw [List.cons_append] at ih'
      rw [List.cons_append, List.cons_append,
        splitSep_cons c d (s'' ++ '\n' :: '\n' :: t) (by intro hp; exact hc hp.1), ih']
      rfl

/-- The concatenation of well-formed blocks splits into the marker-prefixed
payload lines plus an empty leftover. -/
theorem splitSep_blocks (ps : List String) (h : ∀ p ∈ ps, '\n' ∉ p.toList) :
    splitSep ((ps.map mkBlock).flatten)
      = ps.map (fun p => sseMarker ++ p.toList) ++ [[]] := by
  induction ps with
  | nil => rfl
  | cons p ps' ih =>
    have hnp : '\n' ∉ sseMarker ++ p.toList := by
      intro hm
      rcases List.mem_append.mp hm with hm | hm
      · revert hm; decide
      · exact h p (List.mem_cons_self _ _) hm
    rw [List.map_cons, List.flatten_cons,
      show mkBlock p ++ (ps'.map mkBlock).flatten
        = (sseMarker ++ p.toList) ++ '\n' :: '\n' :: (ps'.map mkBlock).flatten by
          simp [mkBlock],
      splitSep_block _ hnp, ih (fun q hq => h q (List.mem_cons_of_mem _ hq))]
    rfl

theorem splitLines_no_newline {s : List Char} (h : '\n' ∉ s) : splitLines s = [s] := by
  induction s with
  | nil => rfl
  | cons c s' ih =>
    have hc : ¬c = '\n' := by intro he; exact h (he ▸ List.mem_cons_self c s')
    rw [show splitLines (c :: s') = consHead c (splitLines s') by simp [splitLines, hc],
      ih (by intro hm; exact h (List.mem_cons_of_mem c hm))]
    rfl

theorem isPrefixOf_append_self (a b : List Char) : a.isPrefixOf (a ++ b) = true := by
  induction a with
  | nil => simp [List.isPrefixOf]
  | cons c a' ih => simp [List.isPrefixOf, ih]

/-- Decoding the segment of a well-formed block hands the payload text to
`JSON.parse`. -/
theorem decodeSeg_marker (p : JsonParse) (pl : String) (h : '\n' ∉ pl.toList) :
    decodeSeg p (sseMarker ++ pl.toList) = p pl := by
  have hnp : '\n' ∉ sseMarker ++ pl.toList := by
    intro hm
    rcases List.mem_append.mp hm with hm | hm
    · revert hm; decide
    · exact h hm
  unfold decodeSeg findDataLine
  rw [splitLines_no_newline hnp]
  rw [List.find?_cons_of_pos _ (isPrefixOf_append_self _ _)]
  have hdrop : (sseMarker ++ pl.toList).drop 6 = pl.toList := by
    rw [show (6 : Nat) = sseMarker.length from rfl, List.drop_left]
  show parseSseJson p (String.mk ((sseMarker ++ pl.toList).drop 6)) = p pl
  rw [hdrop]
  rfl

theorem length_filterMap_of_isSome {α β : Type} (f : α → Option β) (l : List α)
    (h : ∀ x ∈ l, (f x).isSome) : (l.filterMap f).length = l.length := by
  induction l with
  | nil => rfl
  | cons x xs ih =>
    cases hx : f x with
    | none => exact absurd (hx ▸ h x (List.mem_cons_self _ _)) (by simp)
    | some y =>
      rw [List.filterMap_cons, hx, List.length_cons, List.length_cons,
        ih (fun z hz => h z (List.mem_cons_of_mem _ hz))]

/-- Decoding a single well-formed block list as one chunk yields exactly the
parsed payloads. -/
theorem decodeChunks_blocks (p : JsonParse) (payloads : List String)
    (h : ∀ pl ∈ payloads, '\n' ∉ pl.toList) :
    decodeChunks p [(payloads.map mkBlock).flatten] = payloads.filterMap p := by
  unfold decodeChunks
  have hfc : (feedChunks [] [(payloads.map mkBlock).flatten]).1
      = (splitSep ((payloads.map mkBlock).flatten)).dropLast := by
    rw [feedChunks_spec _ _ (by simp)]
    simp
  rw [hfc, splitSep_blocks _ h, List.dropLast_concat, List.filterMap_map]
  exact List.filterMap_congr (fun pl hpl => decodeSeg_marker p pl (h pl hpl))

theorem decodeChunks_flatten (p : JsonParse) (cs : List (List Char)) :
    decodeChunks p cs = decodeChunks p [cs.flatten] := by
  unfold decodeChunks
  rw [feedChunks_flatten]

theorem newline_not_mem_marker_payload {pl : String} (h : '\n' ∉ pl.toList) :
    '\n' ∉ sseMarker ++ pl.toList := by
  intro hm
  rcases List.mem_append.mp hm with hm | hm
  · revert hm; decide
  · exact h hm

theorem splitSep_take_block (pl : String) (i : Nat) (h : '\n' ∉ pl.toList)
    (hi : i < (mkBlock pl).length) :
    (feedChunks [] [(mkBlock pl).take i]).1 = [] := by
  have hhead := newline_not_mem_marker_payload h
  have hfc : (feedChunks [] [(mkBlock pl).take i]).1
      = (splitSep ((mkBlock pl).take i)).dropLast := by
    rw [feedChunks_spec _ _ (by simp)]
    simp
  have hb : mkBlock pl = (sseMarker ++ pl.toList) ++ ['\n', '\n'] := by
    simp [mkBlock]
  have hlen : (mkBlock pl).length = (sseMarker ++ pl.toList).length + 2 := by
    rw [hb, List.length_append]
    rfl
  rw [hfc]
  by_cases hc : i ≤ (sseMarker ++ pl.toList).length
  · rw [hb, List.take_append_of_le_length hc,
      splitSep_no_newline (fun hm => hhead (List.take_subset _ _ hm))]
    rfl
  · have hieq : i = (sseMarker ++ pl.toList).length + 1 := by omega
    rw [hb, hieq, List.take_append,
      show (['\n', '\n'] : List Char).take 1 = ['\n'] from rfl,
      splitSep_append_newline hhead]
    rfl

/-- C3: Framing idempotence of the codec.  (1) For any sequence of raw text
chunks, decoding them one chunk at a time with the carried buffer yields the
same ordered frame list as decoding the single concatenated chunk.  (2) When
the concatenation forms well-formed `data:`-blocks whose payloads all parse,
the decoded frames are exactly the parsed payloads, one frame per block.
(3) In particular a single block split at an arbitrary boundary yields zero
complete segments (hence zero frames) after the first partial chunk, and
exactly the block's frame once both chunks have arrived. -/
theorem c3_framing_idempotence :
    (∀ (p : JsonParse) (cs : List (List Char)),
        decodeChunks p cs = decodeChunks p [cs.flatten])
  ∧ (∀ (p : JsonParse) (payloads : List String) (cs : List (List Char)),
        cs.flatten = (payloads.map mkBlock).flatten →
        (∀ pl ∈ payloads, '\n' ∉ pl.toList) →
        (∀ pl ∈ payloads, (p pl).isSome) →
        decodeChunks p cs = payloads.filterMap p ∧
        (payloads.filterMap p).length = payloads.length)
  ∧ (∀ (p : JsonParse) (pl : String) (obj : Obj) (i : Nat),
        '\n' ∉ pl.toList → p pl = some obj → i < (mkBlock pl).length →
        (feedChunks [] [(mkBlock pl).take i]).1 = [] ∧
        decodeChunks p [(mkBlock pl).take i, (mkBlock pl).drop i] = [obj]) := by
  refine ⟨fun p cs => decodeChunks_flatten p cs, ?_, ?_⟩
  · intro p payloads cs hflat hnl hsome
    constructor
    · rw [decodeChunks_flatten, hflat, decodeChunks_blocks p payloads hnl]
    · exact length_filterMap_of_isSome _ _ hsome
  · intro p pl obj i hnl hp hi
    refine ⟨splitSep_take_block pl i hnl hi, ?_⟩
    rw [decodeChunks_flatten]
    have hjoin : ([(mkBlock pl).take i, (mkBlock pl).drop i] : List (List Char)).flatten
        = mkBlock pl := by
      simp [List.take_append_drop]
    rw [hjoin]
    have h2 : ([pl].map mkBlock).flatten = mkBlock pl := by simp
    rw [← h2, decodeChunks_blocks p [pl] (by simpa using hnl)]
    simp [hp]

/-- Witness for C3 at a concrete split block: the `done{id:7}` block split
after the third character decodes to zero frames and then to its one frame. -/
theorem c3_framing_idempotence_witness :
    (feedChunks [] [(mkBlock rawDone7).take 3]).1 = [] ∧
    decodeChunks testParse [(mkBlock rawDone7).take 3, (mkBlock rawDone7).drop 3]
      = [[("type", JVal.vstr "done"), ("id", JVal.vnum 7)]] :=
  c3_framing_idempotence.2.2 testParse rawDone7
    [("type", JVal.vstr "done"), ("id", JVal.vnum 7)] 3
    (by decide) (by rfl) (by decide)

/-! ## EventSource runner lemmas -/

theorem runES_closed {α : Type} (onMsg : String → List α × Bool) (onErr : List α × Bool)
    (l : List ESIn) : runES onMsg onErr l true = ([], true) := by
  induction l with
  | nil => rfl
  | cons e rest ih => simp [runES, ih]

theorem runES_append {α : Type} (onMsg : String → List α × Bool) (onErr : List α × Bool)
    (l1 l2 : List ESIn) (c : Bool) :
    runES onMsg onErr (l1 ++ l2) c =
      ((runES onMsg onErr l1 c).1
         ++ (runES onMsg onErr l2 (runES onMsg onErr l1 c).2).1,
       (runES onMsg onErr l2 (runES onMsg onErr l1 c).2).2) := by
  induction l1 generalizing c with
  | nil => simp [runES]
  | cons e rest ih =>
    by_cases hc : c
    · subst hc
      simp [runES, runES_closed]
    · simp only [Bool.not_eq_true] at hc
      subst hc
      cases e with
      | message raw => simp [runES, ih]
      | errEvent => simp [runES, ih]

/-- C1 (amended): terminal exclusivity holds for the push-subscription
transport — once the rewrite stream's handler has closed the connection
(which every `done` and `error` frame does), frames supplied afterwards fire
no callback — and for the chunked-response transport it holds after an
`error` frame, whose processing throws and aborts the read loop; but (see
the counterexample) frames supplied after a `done` frame on the
chunked-response transport still fire callbacks. -/
theorem c1_terminal_exclusivity :
    (∀ (p : JsonParse) (pre suf : List ESIn),
        (rewriteWithStreamRun p pre).2 = true →
        rewriteWithStreamRun p (pre ++ suf) = rewriteWithStreamRun p pre)
  ∧ (∀ (d : Obj),
        getField d "type" = some (.vstr "done") ∨ getField d "type" = some (.vstr "error") →
        (rewriteOnMessage (some d)).2 = true)
  ∧ (∀ (p : JsonParse) (now sn : String) (l1 l2 : List (List Char))
        (buf : List Char) (st : Option WritingStyle) (cbs : List ExCb) (e : String),
        extractLoop p now sn l1 buf st = (cbs, .error e) →
        extractLoop p now sn (l1 ++ l2) buf st = (cbs, .error e))
  ∧ (∀ (p : JsonParse) (now sn : String) (seg payload : List Char)
        (st : Option WritingStyle) (d : Obj),
        findDataLine seg = some payload →
        parseSseJson p (String.mk payload) = some d →
        jsToString (jsOrDefault (getField d "type") (.vstr "")) = "error" →
        extractHandleSeg p now sn seg st
          = ([], .error (jsToString (jsOrDefault (getField d "message")
              (.vstr "风格提取失败"))))) := by
  refine ⟨?_, ?_, ?_, ?_⟩
  · intro p pre suf h
    unfold rewriteWithStreamRun at h ⊢
    rw [runES_append, h, runES_closed]
    refine Prod.ext ?_ ?_
    · simp
    · simp [h]
  · intro d h
    rcases h with h | h <;> simp [rewriteOnMessage, h]
  · intro p now sn l1 l2 buf st cbs e h
    induction l1 generalizing buf st cbs e with
    | nil => simp [extractLoop] at h
    | cons c cs ih =>
      rw [List.cons_append]
      simp only [extractLoop] at h ⊢
      cases hsp : (extractSegs p now sn (feedChunk buf c).1 st).2 with
      | error e2 =>
        simp only [hsp] at h ⊢
        exact h
      | ok st2 =>
        simp only [hsp] at h ⊢
        obtain ⟨h1, h2⟩ := Prod.mk.injEq _ _ _ _ ▸ h
        cases hrec : extractLoop p now sn cs (feedChunk buf c).2 st2 with
        | mk rcbs rres =>
          rw [hrec] at h1 h2
          cases rres with
          | ok st3 => simp at h2
          | error e3 =>
            simp only at h1 h2
            obtain ⟨rfl⟩ := h2
            rw [ih _ _ _ _ hrec]
            simp [h1]
  · intro p now sn seg payload st d hfd hp hty
    simp [extractHandleSeg, hfd, hp, hty]

/-- C1 counterexample: on the chunked-response transport, supplying a
`content("x")` frame after the `done{id:7}` frame still fires `onChunk("x")`
— the claim's "no callback fires for frames supplied after a terminal frame"
is false for the chunked-response transport's `done`. -/
theorem c1_terminal_exclusivity_cex :
    (extractStyleWithStreamRun testParse "NOW" "S" afterDoneChunks).1
      = [ExCb.exChunk "x"] := by
  rfl

/-- Witness for C1: a frame after `done` on the push transport changes
nothing. -/
theorem c1_terminal_exclusivity_witness :
    rewriteWithStreamRun testParse ([ESIn.message rawDoneFinal] ++ [ESIn.message rawHello])
      = rewriteWithStreamRun testParse [ESIn.message rawDoneFinal] :=
  c1_terminal_exclusivity.1 testParse [ESIn.message rawDoneFinal]
    [ESIn.message rawHello] (by rfl)

/-- C7 (amended): frames whose `type` lies outside the stage's known enum
fire no callback and leave the stream state unchanged in the style
extraction, rewrite and review streams; in the cover-generation stream such
frames do not close the connection, but they are passed to the catch-all
`onProgress` callback (see the counterexample), so they are not fully
ignored there. -/
theorem c7_unknown_types_ignored :
    (∀ (d : Obj),
        getField d "type" ∉ ([some (JVal.vstr "start"), some (JVal.vstr "progress"),
          some (JVal.vstr "content"), some (JVal.vstr "done"),
          some (JVal.vstr "error")] : List (Option JVal)) →
        rewriteOnMessage (some d) = ([], false))
  ∧ (∀ (d : Obj),
        getField d "type" ∉ ([some (JVal.vstr "start"), some (JVal.vstr "content"),
          some (JVal.vstr "done"), some (JVal.vstr "error")] : List (Option JVal)) →
        reviewOnMessage (some d) = ([], false))
  ∧ (∀ (p : JsonParse) (now sn : String) (seg payload : List Char)
        (st : Option WritingStyle) (d : Obj),
        findDataLine seg = some payload →
        parseSseJson p (String.mk payload) = some d →
        jsToString (jsOrDefault (getField d "type") (.vstr ""))
          ∉ (["start", "progress", "content", "error", "done"] : List String) →
        extractHandleSeg p now sn seg st = ([], .ok st))
  ∧ (∀ (d : Obj),
        getField d "type" ∉ ([some (JVal.vstr "start"), some (JVal.vstr "prompt"),
          some (JVal.vstr "prompt_done"), some (JVal.vstr "saving"),
          some (JVal.vstr "generating"), some (JVal.vstr "done"),
          some (JVal.vstr "error")] : List (Option JVal)) →
        coverOnMessage (some d) = ([.cvProgress d], false)) := by
  refine ⟨?_, ?_, ?_, ?_⟩
  · intro d h
    simp only [List.mem_cons, List.not_mem_nil, or_false, not_or] at h
    obtain ⟨h1, h2, h3, h4, h5⟩ := h
    simp [rewriteOnMessage, h1, h2, h3, h4, h5]
  · intro d h
    simp only [List.mem_cons, List.not_mem_nil, or_false, not_or] at h
    obtain ⟨h1, h2, h3, h4⟩ := h
    simp [reviewOnMessage, h1, h2, h3, h4]
  · intro p now sn seg payload st d hfd hp h
    simp only [List.mem_cons, List.not_mem_nil, or_false, not_or] at h
    obtain ⟨h1, h2, h3, h4, h5⟩ := h
    simp [extractHandleSeg, hfd, hp, h1, h2, h3, h4, h5]
  · intro d h
    simp only [List.mem_cons, List.not_mem_nil, or_false, not_or] at h
    obtain ⟨h1, h2, h3, h4, h5, h6, h7⟩ := h
    simp [coverOnMessage, h6, h7]

/-- C7 counterexample: a cover-stream frame of unknown type `"bogus"` fires
a callback (`onProgress`), contradicting "no callback is invoked for that
frame" for the cover-generation entry point. -/
theorem c7_unknown_types_cex :
    (coverOnMessage (testParse rawBogus)).1 ≠ [] := by decide

/-- Witness for C7 at a concrete unknown-typed cover frame. -/
theorem c7_unknown_types_witness :
    coverOnMessage (some [("type", JVal.vstr "bogus")])
      = ([CvCb.cvProgress [("type", JVal.vstr "bogus")]], false) :=
  c7_unknown_types_ignored.2.2.2 [("type", JVal.vstr "bogus")] (by decide)

theorem runES_cons_message {α : Type} (onMsg : String → List α × Bool)
    (onErr : List α × Bool) (raw : String) (rest : List ESIn) :
    runES onMsg onErr (ESIn.message raw :: rest) false
      = ((onMsg raw).1 ++ (runES onMsg onErr rest (onMsg raw).2).1,
         (runES onMsg onErr rest (onMsg raw).2).2) := rfl

theorem runES_cons_err {α : Type} (onMsg : String → List α × Bool)
    (onErr : List α × Bool) (rest : List ESIn) :
    runES onMsg onErr (ESIn.errEvent :: rest) false
      = (onErr.1 ++ (runES onMsg onErr rest onErr.2).1,
         (runES onMsg onErr rest onErr.2).2) := rfl

theorem runES_rewrite_filter (p : JsonParse) (events : List ESIn) (c : Bool) :
    runES (fun raw => rewriteOnMessage (parseSseJson p raw))
        ([.rwError "Connection error"], true) events c
      = runES (fun raw => rewriteOnMessage (parseSseJson p raw))
          ([.rwError "Connection error"], true) (events.filter (wellFormedEvent p)) c := by
  induction events generalizing c with
  | nil => rfl
  | cons e rest ih =>
    by_cases hc : c
    · subst hc
      rw [runES_closed, runES_closed]
    · simp only [Bool.not_eq_true] at hc
      subst hc
      cases e with
      | errEvent =>
        have hw : wellFormedEvent p ESIn.errEvent = true := rfl
        rw [List.filter_cons_of_pos hw, runES_cons_err, runES_cons_err,
          runES_closed, runES_closed]
      | message raw =>
        cases hp : parseSseJson p raw with
        | none =>
          have hw : ¬wellFormedEvent p (ESIn.message raw) = true := by
            simp [wellFormedEvent, hp]
          rw [List.filter_cons_of_neg hw, runES_cons_message]
          have hnone : rewriteOnMessage (parseSseJson p raw) = ([], false) := by
            rw [hp]
            rfl
          rw [hnone, List.nil_append, ih]
        | some d =>
          have hw : wellFormedEvent p (ESIn.message raw) = true := by
            simp [wellFormedEvent, hp]
          rw [List.filter_cons_of_pos hw, runES_cons_message, runES_cons_message, ih]

/-- C8: a `data:` payload that fails to parse fires no callback and does not
close the connection — the run over any event sequence equals the run over
the same sequence with the malformed message events removed, so all
well-formed frames around them are still dispatched, in order. -/
theorem c8_malformed_dropped :
    (∀ (p : JsonParse) (raw : String), parseSseJson p raw = none →
        rewriteOnMessage (parseSseJson p raw) = ([], false))
  ∧ (∀ (p : JsonParse) (events : List ESIn),
        rewriteWithStreamRun p events
          = rewriteWithStreamRun p (events.filter (wellFormedEvent p))) := by
  constructor
  · intro p raw h
    rw [h]
    rfl
  · intro p events
    unfold rewriteWithStreamRun
    exact runES_rewrite_filter p events false

/-- Witness for C8: a garbage payload between two well-formed frames is
dropped and the deltas still arrive in order. -/
theorem c8_malformed_dropped_witness :
    rewriteOnMessage (parseSseJson testParse "garbage") = ([], false) ∧
    rewriteWithStreamRun testParse
        [ESIn.message rawHello, ESIn.message "garbage", ESIn.message rawWorld]
      = rewriteWithStreamRun testParse
          (([ESIn.message rawHello, ESIn.message "garbage",
             ESIn.message rawWorld]).filter (wellFormedEvent testParse)) :=
  ⟨c8_malformed_dropped.1 testParse "garbage" (by rfl),
   c8_malformed_dropped.2 testParse _⟩

/-! ## Session machine lemmas -/

theorem startRewriteRun_append (p : JsonParse) (f : Int → Except String RewriteRecord)
    (l1 l2 : List Occ) :
    startRewriteRun p f (l1 ++ l2)
      = l2.foldl (startRewriteStep p f) (startRewriteRun p f l1) := by
  unfold startRewriteRun
  rw [List.foldl_append]

theorem applyRwCb_unsettled_none (st : StartRwState) (c : RwCb)
    (h : st.settled = false → st.promise = none) :
    (applyRwCb st c).settled = false → (applyRwCb st c).promise = none := by
  cases c with
  | rwChunk s => exact h
  | rwStart i => exact h
  | rwError m =>
    by_cases hs : st.settled
    · rw [show applyRwCb st (.rwError m) = st by simp [applyRwCb, hs]]
      exact h
    · rw [show applyRwCb st (.rwError m)
          = { st with settled := true, promise := settleP st.promise (.error m) } by
            simp [applyRwCb, hs]]
      intro hf
      simp at hf
  | rwDone d =>
    by_cases hs : st.settled
    · rw [show applyRwCb st (.rwDone d) = st by simp [applyRwCb, hs]]
      exact h
    · cases ht : st.taskId with
      | none =>
        rw [show applyRwCb st (.rwDone d)
            = { st with settled := true
                        promise := settleP st.promise (.error "未获取到改写任务ID") } by
              simp [applyRwCb, hs, ht]]
        intro hf
        simp at hf
      | some t =>
        by_cases ht0 : t = 0
        · rw [show applyRwCb st (.rwDone d)
              = { st with settled := true
                          promise := settleP st.promise (.error "未获取到改写任务ID") } by
                simp [applyRwCb, hs, ht, ht0]]
          intro hf
          simp at hf
        · rw [show applyRwCb st (.rwDone d)
              = { st with pendingFetch := some t, fetchLog := st.fetchLog ++ [t] } by
                simp [applyRwCb, hs, ht, ht0]]
          exact h

theorem foldl_applyRwCb_unsettled_none (cbs : List RwCb) (st : StartRwState)
    (h : st.settled = false → st.promise = none) :
    (cbs.foldl applyRwCb st).settled = false → (cbs.foldl applyRwCb st).promise = none := by
  induction cbs generalizing st with
  | nil => exact h
  | cons c cs ih => exact ih _ (applyRwCb_unsettled_none st c h)

/-- An unsettled `startRewrite` session's promise has no completion value. -/
theorem startRw_unsettled_none (p : JsonParse) (f : Int → Except String RewriteRecord)
    (occs : List Occ) :
    (startRewriteRun p f occs).settled = false → (startRewriteRun p f occs).promise = none := by
  unfold startRewriteRun
  induction occs using List.reverseRecOn with
  | nil => intro _; rfl
  | append_singleton l o ih =>
    rw [List.foldl_append, List.foldl_cons, List.foldl_nil]
    set st := l.foldl (startRewriteStep p f) startRwInit with hst
    cases o with
    | cancelCall => exact fun hf => ih hf
    | fetchReturn =>
      cases hp : st.pendingFetch with
      | none =>
        simp [startRewriteStep, hp]
        exact fun hf => ih hf
      | some t => simp [startRewriteStep, hp]
    | es e =>
      by_cases hc : st.esClosed
      · simp [startRewriteStep, hc]
        exact fun hf => ih hf
      · simp only [startRewriteStep, hc, Bool.false_eq_true, if_false]
        exact foldl_applyRwCb_unsettled_none _ _ ih

/-- C9: an `error` frame received by an open, unsettled rewrite session
rejects the completion with the server-supplied message and closes the
connection; a transport-level error event rejects it with the generic
`"Connection error"` message and closes the connection. -/
theorem c9_error_propagation :
    (∀ (p : JsonParse) (f : Int → Except String RewriteRecord) (pre : List Occ)
        (raw : String) (d : Obj) (m : String),
        (startRewriteRun p f pre).esClosed = false →
        (startRewriteRun p f pre).settled = false →
        parseSseJson p raw = some d →
        getField d "type" = some (.vstr "error") →
        getField d "message" = some (.vstr m) → m ≠ "" →
        (startRewriteRun p f (pre ++ [.es (.message raw)])).promise
            = some (.error m)
          ∧ (startRewriteRun p f (pre ++ [.es (.message raw)])).esClosed = true)
  ∧ (∀ (p : JsonParse) (f : Int → Except String RewriteRecord) (pre : List Occ),
        (startRewriteRun p f pre).esClosed = false →
        (startRewriteRun p f pre).settled = false →
        (startRewriteRun p f (pre ++ [.es .errEvent])).promise
            = some (.error "Connection error")
          ∧ (startRewriteRun p f (pre ++ [.es .errEvent])).esClosed = true) := by
  constructor
  · intro p f pre raw d m hc hs hp hty hm hm0
    have hpr : (startRewriteRun p f pre).promise = none :=
      startRw_unsettled_none p f pre hs
    rw [startRewriteRun_append, List.foldl_cons, List.foldl_nil]
    have htr : jsTruthy (.vstr m) = true := by simp [jsTruthy, hm0]
    have hfired : rewriteOnMessage (parseSseJson p raw) = ([.rwError m], true) := by
      rw [hp]
      simp [rewriteOnMessage, hty, hm, jsOrDefault, htr, jsToString]
    simp [startRewriteStep, hc, hfired, applyRwCb, hs, hpr, settleP]
  · intro p f pre hc hs
    have hpr : (startRewriteRun p f pre).promise = none :=
      startRw_unsettled_none p f pre hs
    rw [startRewriteRun_append, List.foldl_cons, List.foldl_nil]
    simp [startRewriteStep, hc, applyRwCb, hs, hpr, settleP]

/-- Witness for C9 at a concrete error frame and a concrete transport
failure. -/
theorem c9_error_propagation_witness :
    ((startRewriteRun testParse fetch42
        ([Occ.es (ESIn.message rawHello)] ++ [Occ.es (ESIn.message rawErrorBoom)])).promise
      = some (.error "boom")
    ∧ (startRewriteRun testParse fetch42
        ([Occ.es (ESIn.message rawHello)] ++ [Occ.es (ESIn.message rawErrorBoom)])).esClosed
      = true)
  ∧ ((startRewriteRun testParse fetch42 ([] ++ [Occ.es ESIn.errEvent])).promise
      = some (.error "Connection error")
    ∧ (startRewriteRun testParse fetch42 ([] ++ [Occ.es ESIn.errEvent])).esClosed = true) :=
  ⟨c9_error_propagation.1 testParse fetch42 [Occ.es (ESIn.message rawHello)]
      rawErrorBoom [("type", JVal.vstr "error"), ("message", JVal.vstr "boom")] "boom"
      (by rfl) (by rfl) (by rfl) (by rfl) (by rfl) (by decide),
   c9_error_propagation.2 testParse fetch42 [] (by rfl) (by rfl)⟩

theorem startRewriteStep_quiescent (p : JsonParse) (f : Int → Except String RewriteRecord)
    (st : StartRwState) (o : Occ) (hc : st.esClosed = true) (hpend : st.pendingFetch = none) :
    startRewriteStep p f st o = st := by
  cases o with
  | cancelCall =>
    show { st with esClosed := true } = st
    cases st
    simp_all
  | fetchReturn => simp [startRewriteStep, hpend]
  | es e => simp [startRewriteStep, hc]

theorem foldl_startRewriteStep_quiescent (p : JsonParse)
    (f : Int → Except String RewriteRecord) (st : StartRwState) (suf : List Occ)
    (hc : st.esClosed = true) (hpend : st.pendingFetch = none) :
    suf.foldl (startRewriteStep p f) st = st := by
  induction suf with
  | nil => rfl
  | cons o os ih =>
    rw [List.foldl_cons, startRewriteStep_quiescent p f st o hc hpend, ih]

/-- C6: cancelling (closing the connection of) a session that has processed
no terminal frame (not settled, no pending reconciliation fetch) sets the
connection's closed flag, and thereafter — whatever further transport
events, cancellations or fetch resumptions occur — the completion promise
stays unsettled and no further callback fires. -/
theorem c6_cancellation :
    ∀ (p : JsonParse) (f : Int → Except String RewriteRecord) (pre suf : List Occ),
      (startRewriteRun p f pre).settled = false →
      (startRewriteRun p f pre).pendingFetch = none →
      (startRewriteRun p f (pre ++ .cancelCall :: suf)).esClosed = true
      ∧ (startRewriteRun p f (pre ++ .cancelCall :: suf)).promise = none
      ∧ (startRewriteRun p f (pre ++ .cancelCall :: suf)).cbLog
          = (startRewriteRun p f pre).cbLog := by
  intro p f pre suf hs hpend
  have hpr := startRw_unsettled_none p f pre hs
  rw [startRewriteRun_append, List.foldl_cons]
  have hcancel : startRewriteStep p f (startRewriteRun p f pre) .cancelCall
      = { startRewriteRun p f pre with esClosed := true } := rfl
  rw [hcancel, foldl_startRewriteStep_quiescent p f _ suf rfl (by simpa using hpend)]
  exact ⟨rfl, hpr, rfl⟩

/-- Witness for C6: cancel after one `content` frame, then push another
frame into the closed transport. -/
theorem c6_cancellation_witness :
    (startRewriteRun testParse fetch42
        ([Occ.es (ESIn.message rawHello)] ++ .cancelCall :: [Occ.es (ESIn.message rawWorld)])).esClosed
      = true
    ∧ (startRewriteRun testParse fetch42
        ([Occ.es (ESIn.message rawHello)] ++ .cancelCall :: [Occ.es (ESIn.message rawWorld)])).promise
      = none
    ∧ (startRewriteRun testParse fetch42
        ([Occ.es (ESIn.message rawHello)] ++ .cancelCall :: [Occ.es (ESIn.message rawWorld)])).cbLog
      = (startRewriteRun testParse fetch42 [Occ.es (ESIn.message rawHello)]).cbLog :=
  c6_cancellation testParse fetch42 [Occ.es (ESIn.message rawHello)]
    [Occ.es (ESIn.message rawWorld)] (by rfl) (by rfl)

theorem step_content (p : JsonParse) (f : Int → Except String RewriteRecord)
    (st : StartRwState) (r : String) (o : Obj) (hc : st.esClosed = false)
    (hpo : parseSseJson p r = some o)
    (htyo : getField o "type" = some (.vstr "content")) :
    startRewriteStep p f st (.es (.message r))
      = { st with esClosed := false,
                  cbLog := st.cbLog
                    ++ [.rwChunk (jsToString (jsOrDefault (getField o "delta")
                         (.vstr "")))] } := by
  have hfired : rewriteOnMessage (parseSseJson p r)
      = ([.rwChunk (jsToString (jsOrDefault (getField o "delta") (.vstr "")))], false) := by
    rw [hpo]
    simp [rewriteOnMessage, htyo]
  simp [startRewriteStep, hc, hfired, applyRwCb]

theorem foldl_content_invariant (p : JsonParse) (f : Int → Except String RewriteRecord)
    (cs : List String)
    (hcs : ∀ raw ∈ cs, ∃ o, parseSseJson p raw = some o
        ∧ getField o "type" = some (.vstr "content"))
    (st : StartRwState) (hc : st.esClosed = false) (ht : st.taskId = none)
    (hs : st.settled = false) (hpr : st.promise = none) :
    ((cs.map (fun r => Occ.es (ESIn.message r))).foldl (startRewriteStep p f) st).esClosed
        = false
    ∧ ((cs.map (fun r => Occ.es (ESIn.message r))).foldl (startRewriteStep p f) st).taskId
        = none
    ∧ ((cs.map (fun r => Occ.es (ESIn.message r))).foldl (startRewriteStep p f) st).settled
        = false
    ∧ ((cs.map (fun r => Occ.es (ESIn.message r))).foldl (startRewriteStep p f) st).promise
        = none := by
  induction cs generalizing st with
  | nil => exact ⟨hc, ht, hs, hpr⟩
  | cons r rs ih =>
    obtain ⟨o, hpo, htyo⟩ := hcs r (List.mem_cons_self _ _)
    rw [List.map_cons, List.foldl_cons, step_content p f st r o hc hpo htyo]
    exact ih (fun raw hraw => hcs raw (List.mem_cons_of_mem _ hraw)) _
      (by simp) (by simpa using ht) (by simpa using hs) (by simpa using hpr)

theorem step_done_missing (p : JsonParse) (f : Int → Except String RewriteRecord)
    (st : StartRwState) (raw : String) (o : Obj) (hc : st.esClosed = false)
    (ht : st.taskId = none) (hs : st.settled = false) (hpr : st.promise = none)
    (hpo : parseSseJson p raw = some o)
    (htyo : getField o "type" = some (.vstr "done")) :
    (startRewriteStep p f st (.es (.message raw))).promise
      = some (.error "未获取到改写任务ID") := by
  have hfired : rewriteOnMessage (parseSseJson p raw) = ([.rwDone o], true) := by
    rw [hpo]
    simp [rewriteOnMessage, htyo]
  simp [startRewriteStep, hc, hfired, applyRwCb, hs, ht, hpr, settleP]

/-- C2 (amended): a rewrite session fed a `start` frame whose `task_id` is
absent or non-positive, any number of `content` frames, and a `done` frame,
settles as failed with the distinct missing-record-id rejection
`"未获取到改写任务ID"`; the chunked style-extraction session, however, fed
the same shape of sequence, resolves successfully with a `WritingStyle`
whose id is `0` (see the counterexample). -/
theorem c2_missing_id :
    (∀ (p : JsonParse) (f : Int → Except String RewriteRecord)
        (rawS rawD : String) (oS oD : Obj) (cs : List String),
        parseSseJson p rawS = some oS →
        getField oS "type" = some (.vstr "start") →
        jsToNumber (jsOrDefault (getField oS "task_id") (.vnum 0)) ≤ 0 →
        parseSseJson p rawD = some oD →
        getField oD "type" = some (.vstr "done") →
        (∀ raw ∈ cs, ∃ o, parseSseJson p raw = some o
            ∧ getField o "type" = some (.vstr "content")) →
        (startRewriteRun p f
            (.es (.message rawS) :: cs.map (fun r => .es (.message r))
              ++ [.es (.message rawD)])).promise
          = some (.error "未获取到改写任务ID"))
  ∧ ((extractStyleWithStreamRun testParse "NOW" "S" missingIdChunks).2
      = .ok { id := 0, name := "S", style_description := "", tags := none,
              created_at := "NOW" }) := by
  constructor
  · intro p f rawS rawD oS oD cs hpS htyS hidS hpD htyD hcs
    have hngt : ¬(0 < jsToNumber (jsOrDefault (getField oS "task_id") (.vnum 0))) :=
      not_lt.mpr hidS
    have hfS : rewriteOnMessage (parseSseJson p rawS) = ([], false) := by
      rw [hpS]
      simp [rewriteOnMessage, htyS, hngt]
    have hstep1 : startRewriteStep p f startRwInit (.es (.message rawS))
        = { startRwInit with esClosed := false, cbLog := [] } := by
      simp [startRewriteStep, startRwInit, hfS]
    unfold startRewriteRun
    rw [List.foldl_append, List.foldl_cons, List.foldl_nil, List.foldl_cons, hstep1]
    have hinv := foldl_content_invariant p f cs hcs
      { startRwInit with esClosed := false, cbLog := [] }
      (by simp) (by simp [startRwInit]) (by simp [startRwInit]) (by simp [startRwInit])
    exact step_done_missing p f _ rawD oD hinv.1 hinv.2.1 hinv.2.2.1 hinv.2.2.2 hpD htyD
  · rfl

/-- C2 counterexample: the style-extraction session fed `start` (no id),
`content("x")`, `done` (no id) does not fail — it resolves successfully with
a created style whose id is `0`. -/
theorem c2_missing_id_cex :
    (extractStyleWithStreamRun testParse "NOW" "S" missingIdChunks).2
      = .ok { id := 0, name := "S", style_description := "", tags := none,
              created_at := "NOW" } := by
  rfl

/-- Witness for C2 at the concrete missing-id frame sequence. -/
theorem c2_missing_id_witness :
    (startRewriteRun testParse fetch42
        (.es (.message rawStartNoId)
          :: ([rawContentX].map (fun r => .es (.message r)))
          ++ [.es (.message rawDoneNoId)])).promise
      = some (.error "未获取到改写任务ID") :=
  c2_missing_id.1 testParse fetch42 rawStartNoId rawDoneNoId
    [("type", JVal.vstr "start")] [("type", JVal.vstr "done")] [rawContentX]
    (by rfl) (by rfl) (by decide) (by rfl) (by rfl)
    (by
      intro raw hraw
      simp only [List.mem_singleton] at hraw
      exact ⟨[("type", JVal.vstr "content"), ("delta", JVal.vstr "x")],
        by rw [hraw]; rfl, by rfl⟩)

theorem applyRwCb_fetchLog_of_not_done (st : StartRwState) (c : RwCb)
    (h : ∀ d, c ≠ .rwDone d) : (applyRwCb st c).fetchLog = st.fetchLog := by
  cases c with
  | rwChunk s => rfl
  | rwStart i => rfl
  | rwError m => by_cases hs : st.settled <;> simp [applyRwCb, hs]
  | rwDone d => exact absurd rfl (h d)

theorem foldl_fetchLog_of_no_done (cbs : List RwCb) (st : StartRwState)
    (h : ∀ c ∈ cbs, ∀ d, c ≠ .rwDone d) :
    (cbs.foldl applyRwCb st).fetchLog = st.fetchLog := by
  induction cbs generalizing st with
  | nil => rfl
  | cons c cs ih =>
    rw [List.foldl_cons, ih _ (fun x hx => h x (List.mem_cons_of_mem _ hx)),
      applyRwCb_fetchLog_of_not_done st c (h c (List.mem_cons_self _ _))]

theorem rewriteOnMessage_no_done (o : Obj)
    (h : getField o "type" ≠ some (.vstr "done")) :
    ∀ c ∈ (rewriteOnMessage (some o)).1, ∀ d, c ≠ RwCb.rwDone d := by
  intro c hc d hcd
  subst hcd
  by_cases h1 : getField o "type" = some (.vstr "content")
  · simp [rewriteOnMessage, h1] at hc
  · by_cases h2 : getField o "type" = some (.vstr "start")
    · by_cases h3 : 0 < jsToNumber (jsOrDefault (getField o "task_id") (.vnum 0))
      · simp [rewriteOnMessage, h1, h2, h3] at hc
      · simp [rewriteOnMessage, h1, h2, h3] at hc
    · by_cases h4 : getField o "type" = some (.vstr "error")
      · simp [rewriteOnMessage, h1, h2, h, h4] at hc
      · simp [rewriteOnMessage, h1, h2, h, h4] at hc

/-- A run that never processes a `done`-typed frame performs no
reconciliation fetch. -/
theorem startRw_no_done_no_fetch (p : JsonParse)
    (f : Int → Except String RewriteRecord) (occs : List Occ)
    (h : ∀ raw o, Occ.es (ESIn.message raw) ∈ occs → parseSseJson p raw = some o →
        getField o "type" ≠ some (.vstr "done")) :
    (startRewriteRun p f occs).fetchLog = [] := by
  unfold startRewriteRun
  induction occs using List.reverseRecOn with
  | nil => rfl
  | append_singleton l o ih =>
    have ihl := ih (fun raw ob hraw hp =>
      h raw ob (List.mem_append.mpr (Or.inl hraw)) hp)
    rw [List.foldl_append, List.foldl_cons, List.foldl_nil]
    set st := l.foldl (startRewriteStep p f) startRwInit with hst
    cases o with
    | cancelCall => exact ihl
    | fetchReturn =>
      cases hp : st.pendingFetch with
      | none => simpa [startRewriteStep, hp] using ihl
      | some t => simpa [startRewriteStep, hp] using ihl
    | es e =>
      by_cases hc : st.esClosed
      · simpa [startRewriteStep, hc] using ihl
      · cases e with
        | errEvent =>
          have hnd : ∀ c ∈ ([RwCb.rwError "Connection error"] : List RwCb),
              ∀ d, c ≠ RwCb.rwDone d := by
            intro c hcm d
            simp at hcm
            subst hcm
            simp
          simp only [startRewriteStep, hc, Bool.false_eq_true, if_false]
          simpa [applyRwCb_fetchLog_of_not_done st (RwCb.rwError "Connection error")
            (fun d => by simp)] using ihl
        | message raw =>
          cases hp : parseSseJson p raw with
          | none =>
            simp only [startRewriteStep, hc, Bool.false_eq_true, if_false]
            simpa [hp, rewriteOnMessage] using ihl
          | some ob =>
            have hnd := rewriteOnMessage_no_done ob
              (h raw ob (List.mem_append.mpr (Or.inr (by simp))) hp)
            simp only [startRewriteStep, hc, Bool.false_eq_true, if_false]
            simpa [hp, foldl_fetchLog_of_no_done _ st hnd] using ihl

/-- C4: in the end-to-end rewrite scenario (`start{task_id:42}`,
`content{delta:"Hello"}`, `content{delta:", World!"}`,
`done{final_content:"Hello, World!", actual_words:2}`) the call site's
running transcript accumulates `"Hello, World!"` (the in-order concatenation
of the deltas), the session captures record id 42, performs exactly the one
reconciliation fetch of id 42 after `done`, and resolves its completion with
the fetched record; and in general a run that never processes a `done` frame
(error-terminated or cancelled sessions included) performs no reconciliation
fetch at all. -/
theorem c4_end_to_end :
    accumContent (rewriteWithStreamRun testParse scenarioMsgs).1 = "Hello, World!"
  ∧ (startRewriteRun testParse fetch42 scenarioOccs).taskId = some 42
  ∧ (startRewriteRun testParse fetch42 scenarioOccs).promise = some (.ok record42)
  ∧ (startRewriteRun testParse fetch42 scenarioOccs).fetchLog = [42]
  ∧ (∀ (p : JsonParse) (f : Int → Except String RewriteRecord) (occs : List Occ),
      (∀ raw o, Occ.es (ESIn.message raw) ∈ occs → parseSseJson p raw = some o →
        getField o "type" ≠ some (.vstr "done")) →
      (startRewriteRun p f occs).fetchLog = []) :=
  ⟨by rfl, by rfl, by rfl, by rfl,
   fun p f occs h => startRw_no_done_no_fetch p f occs h⟩

/-- Witness for C4's general clause: a session fed one `content` frame and a
transport error performs no fetch. -/
theorem c4_end_to_end_witness :
    (startRewriteRun testParse fetch42
        [Occ.es (ESIn.message rawHello), Occ.es ESIn.errEvent]).fetchLog = [] :=
  c4_end_to_end.2.2.2.2 testParse fetch42
    [Occ.es (ESIn.message rawHello), Occ.es ESIn.errEvent]
    (by
      intro raw o hmem hp
      simp only [List.mem_cons, List.not_mem_nil, or_false] at hmem
      rcases hmem with hmem | hmem
      · have hr : raw = rawHello := by
          injection (by injection hmem : ESIn.message raw = ESIn.message rawHello)
        subst hr
        rw [show parseSseJson testParse rawHello
            = some [("type", JVal.vstr "content"), ("delta", JVal.vstr "Hello")] from rfl]
            at hp
        injection hp with hp
        subst hp
        decide
      · exact absurd hmem (by simp))

/-! ## At-most-once settlement (C10) -/

theorem settleP_keeps {α : Type} {p : Option α} {v : α} (w : α) (h : p = some v) :
    settleP p w = some v := by
  rw [h]
  rfl

theorem applyRwCb_promise_mono (st : StartRwState) (c : RwCb) (v : Except String RewriteRecord)
    (h : st.promise = some v) : (applyRwCb st c).promise = some v := by
  cases c with
  | rwChunk s => exact h
  | rwStart i => exact h
  | rwError m => by_cases hs : st.settled <;> simp [applyRwCb, hs, settleP, h]
  | rwDone d =>
    by_cases hs : st.settled
    · simp [applyRwCb, hs, h]
    · cases ht : st.taskId with
      | none => simp [applyRwCb, hs, ht, settleP, h]
      | some t => by_cases ht0 : t = 0 <;> simp [applyRwCb, hs, ht, ht0, settleP, h]

theorem startRewriteStep_promise_mono (p : JsonParse)
    (f : Int → Except String RewriteRecord) (st : StartRwState) (o : Occ)
    (v : Except String RewriteRecord) (h : st.promise = some v) :
    (startRewriteStep p f st o).promise = some v := by
  cases o with
  | cancelCall => exact h
  | fetchReturn =>
    cases hp : st.pendingFetch with
    | none => simp [startRewriteStep, hp, h]
    | some t => simp [startRewriteStep, hp, settleP, h]
  | es e =>
    by_cases hc : st.esClosed
    · simp [startRewriteStep, hc, h]
    · simp only [startRewriteStep, hc, Bool.false_eq_true, if_false]
      have : ∀ (cbs : List RwCb) (st0 : StartRwState), st0.promise = some v →
          (cbs.foldl applyRwCb st0).promise = some v := by
        intro cbs
        induction cbs with
        | nil => exact fun st0 h0 => h0
        | cons c cs ih => exact fun st0 h0 => ih _ (applyRwCb_promise_mono st0 c v h0)
      cases e with
      | message raw => exact this _ st h
      | errEvent => exact this _ st h

theorem applyRvCb_promise_mono (st : StartRvState) (c : RwCb) (v : Except String ReviewRecord)
    (h : st.promise = some v) : (applyRvCb st c).promise = some v := by
  cases c with
  | rwChunk s => exact h
  | rwStart i => exact h
  | rwError m => by_cases hs : st.settled <;> simp [applyRvCb, hs, settleP, h]
  | rwDone d =>
    by_cases hs : st.settled
    · simp [applyRvCb, hs, h]
    · cases ht : st.reviewId with
      | none => simp [applyRvCb, hs, ht, settleP, h]
      | some t => by_cases ht0 : t = 0 <;> simp [applyRvCb, hs, ht, ht0, settleP, h]

theorem startReviewStep_promise_mono (p : JsonParse)
    (f : Int → Except String ReviewRecord) (st : StartRvState) (o : Occ)
    (v : Except String ReviewRecord) (h : st.promise = some v) :
    (startReviewStep p f st o).promise = some v := by
  cases o with
  | cancelCall => exact h
  | fetchReturn =>
    cases hp : st.pendingFetch with
    | none => simp [startReviewStep, hp, h]
    | some t => simp [startReviewStep, hp, settleP, h]
  | es e =>
    by_cases hc : st.esClosed
    · simp [startReviewStep, hc, h]
    · simp only [startReviewStep, hc, Bool.false_eq_true, if_false]
      have : ∀ (cbs : List RwCb) (st0 : StartRvState), st0.promise = some v →
          (cbs.foldl applyRvCb st0).promise = some v := by
        intro cbs
        induction cbs with
        | nil => exact fun st0 h0 => h0
        | cons c cs ih => exact fun st0 h0 => ih _ (applyRvCb_promise_mono st0 c v h0)
      cases e with
      | message raw => exact this _ st h
      | errEvent => exact this _ st h

theorem applyCvCb_promise_mono (st : StartCvState) (c : CvCb) (v : Except String CoverRecord)
    (h : st.promise = some v) : (applyCvCb st c).promise = some v := by
  cases c with
  | cvProgress d => exact h
  | cvError m => by_cases hs : st.settled <;> simp [applyCvCb, hs, settleP, h]
  | cvDone d =>
    by_cases hs : st.settled
    · simp [applyCvCb, hs, h]
    · by_cases hid : jsToNumber (jsOrDefault (getField d "id") (.vnum 0)) = 0
      · simp [applyCvCb, hs, hid, settleP, h]
      · simp [applyCvCb, hs, hid, settleP, h]

theorem startCoverStep_promise_mono (p : JsonParse)
    (f : Int → Except String CoverRecord) (st : StartCvState) (o : Occ)
    (v : Except String CoverRecord) (h : st.promise = some v) :
    (startCoverStep p f st o).promise = some v := by
  cases o with
  | cancelCall => exact h
  | fetchReturn =>
    cases hp : st.pendingFetch with
    | none => simp [startCoverStep, hp, h]
    | some t => simp [startCoverStep, hp, settleP, h]
  | es e =>
    by_cases hc : st.esClosed
    · simp [startCoverStep, hc, h]
    · simp only [startCoverStep, hc, Bool.false_eq_true, if_false]
      have : ∀ (cbs : List CvCb) (st0 : StartCvState), st0.promise = some v →
          (cbs.foldl applyCvCb st0).promise = some v := by
        intro cbs
        induction cbs with
        | nil => exact fun st0 h0 => h0
        | cons c cs ih => exact fun st0 h0 => ih _ (applyCvCb_promise_mono st0 c v h0)
      cases e with
      | message raw => exact this _ st h
      | errEvent => exact this _ st h

/-- C10: at-most-once settlement of the promise-style starters.  For each of
`startRewrite`, `startReview` and `startCover`, whatever further transport
events, errors, cancellations or fetch resumptions are interleaved after the
first settlement, the completion value never changes: resolve/reject after
the first settlement is a no-op. -/
theorem c10_at_most_once_settlement :
    (∀ (p : JsonParse) (f : Int → Except String RewriteRecord) (l1 l2 : List Occ)
        (v : Except String RewriteRecord),
        (startRewriteRun p f l1).promise = some v →
        (startRewriteRun p f (l1 ++ l2)).promise = some v)
  ∧ (∀ (p : JsonParse) (f : Int → Except String ReviewRecord) (l1 l2 : List Occ)
        (v : Except String ReviewRecord),
        (startReviewRun p f l1).promise = some v →
        (startReviewRun p f (l1 ++ l2)).promise = some v)
  ∧ (∀ (p : JsonParse) (f : Int → Except String CoverRecord) (l1 l2 : List Occ)
        (v : Except String CoverRecord),
        (startCoverRun p f l1).promise = some v →
        (startCoverRun p f (l1 ++ l2)).promise = some v) := by
  refine ⟨?_, ?_, ?_⟩
  · intro p f l1 l2 v h
    unfold startRewriteRun at h ⊢
    rw [List.foldl_append]
    have mono : ∀ (l : List Occ) (st : StartRwState),
        st.promise = some v → (l.foldl (startRewriteStep p f) st).promise = some v := by
      intro l
      induction l with
      | nil => exact fun st h0 => h0
      | cons o os ih =>
        exact fun st h0 => ih _ (startRewriteStep_promise_mono p f st o v h0)
    exact mono l2 _ h
  · intro p f l1 l2 v h
    unfold startReviewRun at h ⊢
    rw [List.foldl_append]
    have mono : ∀ (l : List Occ) (st : StartRvState),
        st.promise = some v → (l.foldl (startReviewStep p f) st).promise = some v := by
      intro l
      induction l with
      | nil => exact fun st h0 => h0
      | cons o os ih =>
        exact fun st h0 => ih _ (startReviewStep_promise_mono p f st o v h0)
    exact mono l2 _ h
  · intro p f l1 l2 v h
    unfold startCoverRun at h ⊢
    rw [List.foldl_append]
    have mono : ∀ (l : List Occ) (st : StartCvState),
        st.promise = some v → (l.foldl (startCoverStep p f) st).promise = some v := by
      intro l
      induction l with
      | nil => exact fun st h0 => h0
      | cons o os ih =>
        exact fun st h0 => ih _ (startCoverStep_promise_mono p f st o v h0)
    exact mono l2 _ h

/-- Witness for C10: a settled session's completion survives extra frames
pushed afterwards. -/
theorem c10_at_most_once_settlement_witness :
    (startRewriteRun testParse fetch42
        (scenarioOccs ++ [Occ.es (ESIn.message rawErrorBoom), Occ.fetchReturn])).promise
      = some (.ok record42) :=
  c10_at_most_once_settlement.1 testParse fetch42 scenarioOccs
    [Occ.es (ESIn.message rawErrorBoom), Occ.fetchReturn] (.ok record42) (by rfl)

/-! ## Single-flight at the call site (C5) -/

theorem closeById_id (i : Nat) (c : Conn) :
    ((if c.id = i then { c with closed := true } else c) : Conn).id = c.id := by
  by_cases h : c.id = i <;> simp [h]

theorem mem_closeById {i : Nat} {l : List Conn} {c : Conn} (h : c ∈ closeById i l) :
    ∃ c0 ∈ l, c = (if c0.id = i then { c0 with closed := true } else c0) := by
  unfold closeById at h
  obtain ⟨c0, hc0, hc⟩ := List.mem_map.mp h
  exact ⟨c0, hc0, hc.symm⟩

theorem pageInv_init : pageInv pageInit := by
  refine ⟨?_, ?_, ?_, ?_⟩ <;> simp [pageInv, pageInit]

theorem closeCurrent_facts (s : PageState) (hinv : pageInv s) :
    (∀ c ∈ closeCurrent s, c.id < s.nextId)
    ∧ (closeCurrent s).Pairwise (fun a b => a.id ≠ b.id)
    ∧ (∀ c ∈ closeCurrent s, c.closed = true) := by
  obtain ⟨hlt, hpw, hopen, hcur⟩ := hinv
  cases hc : s.currentES with
  | none =>
    simp only [closeCurrent, hc]
    refine ⟨hlt, hpw, ?_⟩
    intro c hm
    cases hcl : c.closed with
    | true => rfl
    | false =>
      have := hopen c hm hcl
      rw [hc] at this
      exact Option.noConfusion this
  | some cur =>
    simp only [closeCurrent, hc]
    refine ⟨?_, ?_, ?_⟩
    · intro c hmem
      obtain ⟨c0, hc0, rfl⟩ := mem_closeById hmem
      rw [closeById_id]
      exact hlt c0 hc0
    · unfold closeById
      exact hpw.map _ (by
        intro a b hab
        rw [closeById_id, closeById_id]
        exact hab)
    · intro c hmem
      obtain ⟨c0, hc0, rfl⟩ := mem_closeById hmem
      by_cases h0 : c0.id = cur
      · simp [h0]
      · rw [if_neg h0]
        cases hcl : c0.closed with
        | true => rfl
        | false =>
          have := hopen c0 hc0 hcl
          rw [hc, Option.some.injEq] at this
          exact absurd this.symm h0

theorem pageInv_step (s : PageState) (a : PageAct) (h : pageInv s) :
    pageInv (pageStep s a) := by
  obtain ⟨hclt, hcpw, hcclosed⟩ := closeCurrent_facts s h
  obtain ⟨hlt, hpw, hopen, hcur⟩ := h
  cases a with
  | rewriteClick ok =>
    cases ok with
    | false => exact ⟨hlt, hpw, hopen, hcur⟩
    | true =>
      simp only [pageStep, Bool.not_true, Bool.false_eq_true, if_false]
      refine ⟨?_, ?_, ?_, ?_⟩
      · intro c hmem
        rcases List.mem_append.mp hmem with hm | hm
        · exact Nat.lt_succ_of_lt (hclt c hm)
        · simp only [List.mem_singleton] at hm
          subst hm
          exact Nat.lt_succ_self _
      · refine List.pairwise_append.mpr ⟨hcpw, List.pairwise_singleton _ _, ?_⟩
        intro a2 ha2 b2 hb2
        simp only [List.mem_singleton] at hb2
        subst hb2
        exact Nat.ne_of_lt (hclt a2 ha2)
      · intro c hmem hop
        rcases List.mem_append.mp hmem with hm | hm
        · exact absurd (hcclosed c hm) (by simp [hop])
        · simp only [List.mem_singleton] at hm
          subst hm
          rfl
      · intro i hi
        simp only [Option.some.injEq] at hi
        subst hi
        exact Nat.lt_succ_self _
  | cancelClick =>
    simp only [pageStep]
    refine ⟨hclt, hcpw, ?_, ?_⟩
    · intro c hmem hop
      exact absurd (hcclosed c hmem) (by simp [hop])
    · intro i hi
      exact Option.noConfusion hi
  | unmountCleanup =>
    simp only [pageStep]
    refine ⟨hclt, hcpw, ?_, hcur⟩
    intro c hmem hop
    exact absurd (hcclosed c hmem) (by simp [hop])
  | handlerClose j =>
    simp only [pageStep]
    refine ⟨?_, ?_, ?_, hcur⟩
    · intro c hmem
      obtain ⟨c0, hc0, rfl⟩ := mem_closeById hmem
      rw [closeById_id]
      exact hlt c0 hc0
    · unfold closeById
      exact hpw.map _ (by
        intro a2 b2 hab
        rw [closeById_id, closeById_id]
        exact hab)
    · intro c hmem hop
      obtain ⟨c0, hc0, rfl⟩ := mem_closeById hmem
      by_cases h0 : c0.id = j
      · simp [h0] at hop
      · rw [if_neg h0] at hop ⊢
        exact hopen c0 hc0 hop

theorem pageInv_run (acts : List PageAct) : pageInv (runPage acts) := by
  unfold runPage
  suffices hgen : ∀ (l : List PageAct) (s : PageState), pageInv s → pageInv (l.foldl pageStep s) by
    exact hgen acts pageInit pageInv_init
  intro l
  induction l with
  | nil => exact fun s hs => hs
  | cons a l2 ih => exact fun s hs => ih _ (pageInv_step s a hs)

theorem open_length_le_one (s : PageState) (hinv : pageInv s) :
    (openConns s).length ≤ 1 := by
  obtain ⟨hlt, hpw, hopen, hcur⟩ := hinv
  have hsub : (openConns s).Pairwise (fun a b => a.id ≠ b.id) :=
    List.Pairwise.sublist (List.filter_sublist _) hpw
  cases hoc : openConns s with
  | nil => simp
  | cons a l =>
    cases l with
    | nil => simp
    | cons b l2 =>
      exfalso
      have ha : a ∈ openConns s := by rw [hoc]; simp
      have hb : b ∈ openConns s := by rw [hoc]; simp
      have ha2 := List.mem_filter.mp ha
      have hb2 := List.mem_filter.mp hb
      have hA := hopen a ha2.1 (by simpa using ha2.2)
      have hB := hopen b hb2.1 (by simpa using hb2.2)
      have hab : a.id ≠ b.id := by
        rw [hoc] at hsub
        exact (List.pairwise_cons.mp hsub).1 b (by simp)
      apply hab
      have hAB := hA.symm.trans hB
      injection hAB

/-- C5: single-flight replacement at the `HomePage` call site.  At every
reachable call-site state, at most one connection is open and every open
connection is the one the ref points to; and when a second `handleRewrite`
fires while a connection `i` is current, in the resulting state every
connection with id `i` is closed while the newly opened connection (with a
fresh id ≠ `i`) is the only open one — the old connection is closed before
the new one is opened within the same step. -/
theorem c5_single_flight :
    (∀ acts : List PageAct, (openConns (runPage acts)).length ≤ 1)
  ∧ (∀ (acts : List PageAct) (c : Conn), c ∈ (runPage acts).conns →
      c.closed = false → (runPage acts).currentES = some c.id)
  ∧ (∀ (acts : List PageAct) (i : Nat), (runPage acts).currentES = some i →
      (∀ c ∈ (pageStep (runPage acts) (.rewriteClick true)).conns,
          c.id = i → c.closed = true)
      ∧ (∃ c ∈ (pageStep (runPage acts) (.rewriteClick true)).conns,
          c.closed = false ∧ c.id ≠ i)) := by
  refine ⟨?_, ?_, ?_⟩
  · intro acts
    exact open_length_le_one _ (pageInv_run acts)
  · intro acts c hm ho
    exact (pageInv_run acts).2.2.1 c hm ho
  · intro acts i hi
    have hinv := pageInv_run acts
    obtain ⟨hclt, hcpw, hcclosed⟩ := closeCurrent_facts (runPage acts) hinv
    have hilt : i < (runPage acts).nextId := hinv.2.2.2 i hi
    constructor
    · intro c hm hid
      simp only [pageStep, Bool.not_true, Bool.false_eq_true, if_false] at hm
      rcases List.mem_append.mp hm with h1 | h1
      · exact hcclosed c h1
      · simp only [List.mem_singleton] at h1
        subst h1
        simp only at hid
        omega
    · refine ⟨⟨(runPage acts).nextId, false⟩, ?_, rfl, ?_⟩
      · simp only [pageStep, Bool.not_true, Bool.false_eq_true, if_false]
        exact List.mem_append.mpr (Or.inr (by simp))
      · simp only
        omega

/-- Witness for C5: two consecutive rewrite clicks leave one open
connection, and after one click the current connection has id 0. -/
theorem c5_single_flight_witness :
    (openConns (runPage [PageAct.rewriteClick true, PageAct.rewriteClick true])).length ≤ 1
    ∧ (runPage [PageAct.rewriteClick true]).currentES
        = some (({ id := 0, closed := false } : Conn)).id :=
  ⟨c5_single_flight.1 [PageAct.rewriteClick true, PageAct.rewriteClick true],
   c5_single_flight.2.1 [PageAct.rewriteClick true] { id := 0, closed := false }
     (by decide) (by decide)⟩
